import Mathlib

/-!
Verification of the QR-scan preprocessing pipeline and decoded-content
classification/parsing engine.

The definitions below are a shallow embedding of the two core modules
(`scan-preprocessing.ts` and `scan-content-utils.ts`).  JavaScript strings
are modelled as `List Char`/`String`, `Uint8ClampedArray` pixel buffers as
`List Nat`, and JavaScript number arithmetic as exact arithmetic on
`Nat`/`Int` (integer-valued intermediate results in the filters are exact
in IEEE doubles for the magnitudes involved; the two genuinely fractional
computations — the contrast factor and the mean-luma threshold — are
modelled as exact fractions carried as integer numerator/denominator
pairs, with rationals appearing only in theorem statements).  The external
pattern decoder (`jsQR`) and the host URL constructor (`new URL`) are
modelled as explicit function parameters, since they are external
collaborators of the core.
-/

namespace Spec2Proof

/-! ## JavaScript string primitives -/

/-- The JavaScript `\s` / trim whitespace class (ASCII part plus the
Unicode space characters that `String.prototype.trim` strips). -/
def isJsWhitespace (c : Char) : Bool :=
  c = ' ' || c = '\t' || c = '\n' || c = '\r' || c.val = 11 || c.val = 12 ||
  c.val = 0xa0 || c.val = 0x1680 || (0x2000 ≤ c.val && c.val ≤ 0x200a) ||
  c.val = 0x2028 || c.val = 0x2029 || c.val = 0x202f || c.val = 0x205f ||
  c.val = 0x3000 || c.val = 0xfeff

/-- `String.prototype.trim` on a character list. -/
def jsTrimL (cs : List Char) : List Char :=
  ((cs.dropWhile isJsWhitespace).reverse.dropWhile isJsWhitespace).reverse

/-- `pat` occurs as a contiguous substring (JavaScript `String.includes`). -/
def infixOf (pat : List Char) : List Char → Bool
  | [] => pat.isEmpty
  | c :: t => pat.isPrefixOf (c :: t) || infixOf pat t

/-- JavaScript `String.prototype.split` with a single-character separator. -/
def splitOnCharL (sep : Char) (cs : List Char) : List (List Char) :=
  cs.foldr
    (fun c acc =>
      if c = sep then [] :: acc
      else
        match acc with
        | h :: t => (c :: h) :: t
        | [] => [[c]])
    [[]]

/-! ## Content classification (`detectContentType`) -/

/-- The nine content-type tags of `scan-content-utils.ts`. -/
inductive ContentType where
  | vcard | url | email | phone | wifi | location | sms | text | empty
deriving DecidableEq, Repr

/-- Character class `[\d\s\-\(\)]` of the phone regex. -/
def phoneClass (c : Char) : Bool :=
  c.isDigit || isJsWhitespace c || c = '-' || c = '(' || c = ')'

/-- Matcher for the tail of `^(\+?[\d\s\-\(\)]{10,})$`: `n` characters of the
class have been consumed; the rest of the string must consist of class
characters and bring the total to at least 10. -/
def phoneTailMatch : Nat → List Char → Bool
  | n, [] => 10 ≤ n
  | n, c :: cs => phoneClass c && phoneTailMatch (n + 1) cs

/-- Test of the phone regex `/^(\+?[\d\s\-\(\)]{10,})$/`.  An optional
leading `+` (the class does not contain `+`, so the engine can only consume
it via `\+?`) followed by at least ten class characters up to the end. -/
def phonePatternTest (cs : List Char) : Bool :=
  if cs.head? = some '+' then phoneTailMatch 0 cs.tail else phoneTailMatch 0 cs

/-- Test of the email regex `/^[^\s@]+@[^\s@]+\.[^\s@]+$/`: no whitespace
anywhere, exactly one `@`, a non-empty local part, and a `.` in the domain
part that has at least one character on each side. -/
def emailPatternTest (cs : List Char) : Bool :=
  let local' := cs.takeWhile (· ≠ '@')
  let rest := cs.dropWhile (· ≠ '@')
  match rest with
  | '@' :: domain =>
      cs.all (fun c => !isJsWhitespace c) &&
      !local'.isEmpty &&
      !domain.contains '@' &&
      ((domain.drop 1).dropLast).contains '.'
  | _ => false

/-- Consume `-?\d+\.?\d*` (a signed decimal of the geo regex) greedily,
returning the remainder on success. -/
def signedDecTail (cs : List Char) : Option (List Char) :=
  let cs := match cs with
    | '-' :: t => t
    | _ => cs
  let ds := cs.takeWhile Char.isDigit
  let rest := cs.dropWhile Char.isDigit
  if ds.isEmpty then none
  else
    match rest with
    | '.' :: t => some (t.dropWhile Char.isDigit)
    | _ => some rest

/-- Test of the geo regex `/^geo:-?\d+\.?\d*,-?\d+\.?\d*/` (anchored at the
start only). -/
def geoPatternTest (cs : List Char) : Bool :=
  if "geo:".toList.isPrefixOf cs then
    match signedDecTail (cs.drop 4) with
    | some (',' :: rest) => (signedDecTail rest).isSome
    | _ => false
  else false

/-- After the leading label character: consume `[a-zA-Z0-9-]*`, then require
`\.` followed by at least two letters (the tail of the bare-domain regex,
which is not anchored at the end). -/
def urlLabelTail : List Char → Bool
  | [] => false
  | c :: cs =>
    if c = '.' then
      match cs with
      | a :: b :: _ => a.isAlpha && b.isAlpha
      | _ => false
    else if c.isAlphanum || c = '-' then urlLabelTail cs
    else false

/-- Core of the bare-domain regex: `[a-zA-Z0-9][a-zA-Z0-9-]*[a-zA-Z0-9]*\.[a-zA-Z]{2,}`
as a prefix match (the second star is subsumed by the first). -/
def urlCoreTest : List Char → Bool
  | [] => false
  | c :: cs => c.isAlphanum && urlLabelTail cs

/-- Test of `/^(www\.)?[a-zA-Z0-9][a-zA-Z0-9-]*[a-zA-Z0-9]*\.[a-zA-Z]{2,}/`:
the optional `www.` group is either taken or not. -/
def urlPatternTest (cs : List Char) : Bool :=
  (("www.".toList.isPrefixOf cs) && urlCoreTest (cs.drop 4)) || urlCoreTest cs

/-- `detectContentType` from `scan-content-utils.ts`.  `urlOk` models the
host's `new URL(content)` constructor succeeding (an external collaborator);
every other check is embedded from the source.  The source first returns
`empty` for a falsy or whitespace-only string, then reassigns
`content = content.trim()` and runs the precedence chain on the trimmed
text. -/
def detectContentType (urlOk : String → Bool) (content : String) : ContentType :=
  let cs := jsTrimL content.toList
  if cs.isEmpty then .empty
  else if "BEGIN:VCARD".toList.isPrefixOf cs && infixOf "END:VCARD".toList cs then .vcard
  else if "WIFI:".toList.isPrefixOf cs then .wifi
  else if "SMSTO:".toList.isPrefixOf cs || "sms:".toList.isPrefixOf cs then .sms
  else if phonePatternTest cs || "tel:".toList.isPrefixOf cs then .phone
  else if emailPatternTest cs || "mailto:".toList.isPrefixOf cs then .email
  else if geoPatternTest cs then .location
  else if urlOk (String.mk cs) then .url
  else if urlPatternTest cs then .url
  else .text

/-- A scheme test modelling the host `new URL` absolute-URL requirement:
one ASCII letter, then scheme characters `[A-Za-z0-9+.-]*`, then `:`.
Used to instantiate the external `urlOk` parameter on concrete inputs. -/
def schemeTail : List Char → Bool
  | [] => false
  | c :: cs =>
    if c = ':' then true
    else if c.isAlphanum || c = '+' || c = '-' || c = '.' then schemeTail cs
    else false

/-- A concrete stand-in for the host URL parser: accepts strings that start
with a URL scheme. -/
def hostUrlOk (s : String) : Bool :=
  match s.toList with
  | c :: cs => c.isAlpha && schemeTail cs
  | [] => false

/-! ## vCard parsing (`parseVCard`) -/

/-- One `(type, value)` entry of an email/phone/URL list. -/
structure TypedEntry where
  etype : String
  value : String
deriving DecidableEq, Repr

/-- One parsed `ADR` entry. -/
structure AddressEntry where
  atype : String
  street : Option String
  city : Option String
  state : Option String
  zip : Option String
  country : Option String
  formatted : Option String
deriving DecidableEq, Repr

/-- The `VCardContact` record.  The nested `name`/`organization` objects of
the source are flattened into optional fields; `unmappedFields` is an
insertion-ordered association list in which a duplicate key overwrites the
stored value in place (JavaScript object-property semantics). -/
structure VCardContact where
  nameFormatted : Option String := none
  nameGiven : Option String := none
  nameFamily : Option String := none
  namePre : Option String := none
  nameSuf : Option String := none
  emails : List TypedEntry := []
  phones : List TypedEntry := []
  orgName : Option String := none
  orgTitle : Option String := none
  addresses : List AddressEntry := []
  urls : List TypedEntry := []
  notes : Option String := none
  unmapped : List (String × String) := []
deriving DecidableEq, Repr

/-- Insert-or-overwrite for the unmapped-fields association list. -/
def upsertField (k v : String) : List (String × String) → List (String × String)
  | [] => [(k, v)]
  | (k', v') :: t => if k' = k then (k, v) :: t else (k', v') :: upsertField k v t

/-- Split a line at its first `:` (JavaScript `indexOf(':')`), returning the
part before and the part after. -/
def splitFirstColon : List Char → Option (List Char × List Char)
  | [] => none
  | c :: t =>
    if c = ':' then some ([], t)
    else (splitFirstColon t).map (fun p => (c :: p.1, p.2))

/-- `value.split(';')` destructuring with `x || undefined` semantics:
index `i`, empty or missing becomes `none`. -/
def semiField (parts : List (List Char)) (i : Nat) : Option String :=
  match parts.getD i [] with
  | [] => none
  | cs => some (String.mk cs)

/-- The `TEL` type normalization block of `parseVCard`.  `typeParam` is the
extracted `TYPE=` parameter value (already defaulted to `"default"` when the
parameter is absent or empty, mirroring `... || 'default'`); the source's
`if (typeParam)` truthiness test and the dead `'phone'` initial value are
kept. -/
def telCleanType (typeParam : List Char) : List Char :=
  if typeParam.isEmpty then "phone".toList
  else
    let types := typeParam.map Char.toLower
    if infixOf "cell".toList types || infixOf "mobile".toList types then "mobile".toList
    else if infixOf "work".toList types then "work".toList
    else if infixOf "home".toList types then "home".toList
    else if infixOf "fax".toList types then "fax".toList
    else jsTrimL ((splitOnCharL ',' types).getD 0 [])

/-- The `ADR` formatted-line builder: street, then `zip city` combined,
then state, then country, empty segments filtered out, joined with `", "`. -/
def adrFormatted (street city state zip country : List Char) : List Char :=
  let cityZip := (if zip.isEmpty then [] else [zip]) ++ (if city.isEmpty then [] else [city])
  let parts :=
    (if street.isEmpty then [] else [street]) ++
    (if cityZip.isEmpty then [] else [String.intercalate " " (cityZip.map String.mk) |>.toList]) ++
    (if state.isEmpty then [] else [state]) ++
    (if country.isEmpty then [] else [country])
  String.intercalate ", " (parts.map String.mk) |>.toList

/-- Process one (trimmed, non-empty) vCard line against the contact
accumulator: the `switch (field.toUpperCase())` dispatch of `parseVCard`. -/
def processVCardLine (contact : VCardContact) (line : List Char) : VCardContact :=
  if "BEGIN:".toList.isPrefixOf line || "END:".toList.isPrefixOf line ||
      "VERSION:".toList.isPrefixOf line then contact
  else
    match splitFirstColon line with
    | none => contact
    | some (fieldPart, value) =>
      let pieces := splitOnCharL ';' fieldPart
      let field := pieces.getD 0 []
      let params := pieces.drop 1
      let typeParam :=
        match params.find? (fun p => "TYPE=".toList.isPrefixOf p) with
        | none => "default".toList
        | some p => match p.drop 5 with
          | [] => "default".toList
          | r => r
      let fieldU := field.map Char.toUpper
      if fieldU = "FN".toList then
        { contact with nameFormatted := some (String.mk value) }
      else if fieldU = "N".toList then
        let parts := splitOnCharL ';' value
        { contact with
          nameFamily := semiField parts 0
          nameGiven := semiField parts 1
          namePre := semiField parts 3
          nameSuf := semiField parts 4 }
      else if fieldU = "EMAIL".toList then
        { contact with emails := contact.emails ++
            [⟨String.mk (typeParam.map Char.toLower), String.mk value⟩] }
      else if fieldU = "TEL".toList then
        { contact with phones := contact.phones ++
            [⟨String.mk (telCleanType typeParam), String.mk value⟩] }
      else if fieldU = "ORG".toList then
        { contact with orgName := some (String.mk value) }
      else if fieldU = "TITLE".toList then
        { contact with orgTitle := some (String.mk value) }
      else if fieldU = "ADR".toList then
        let parts := splitOnCharL ';' value
        let street := parts.getD 2 []
        let city := parts.getD 3 []
        let state := parts.getD 4 []
        let zip := parts.getD 5 []
        let country := parts.getD 6 []
        let fmt := adrFormatted street city state zip country
        { contact with addresses := contact.addresses ++
            [{ atype := String.mk (typeParam.map Char.toLower)
               street := semiField parts 2
               city := semiField parts 3
               state := semiField parts 4
               zip := semiField parts 5
               country := semiField parts 6
               formatted := if fmt.isEmpty then none else some (String.mk fmt) }] }
      else if fieldU = "URL".toList then
        { contact with urls := contact.urls ++
            [⟨String.mk (typeParam.map Char.toLower), String.mk value⟩] }
      else if fieldU = "NOTE".toList then
        { contact with notes := some (String.mk value) }
      else
        { contact with unmapped :=
            upsertField (String.mk (field.map Char.toLower)) (String.mk value) contact.unmapped }

/-- `parseVCard`: split into lines (`/\r?\n/` splitting composed with the
subsequent `trim` is equivalent to splitting at `\n` and trimming, since
`\r` is trim whitespace), drop empty lines, fold the dispatch. -/
def parseVCard (s : String) : VCardContact :=
  let lines := ((splitOnCharL '\n' s.toList).map jsTrimL).filter (fun l => !l.isEmpty)
  lines.foldl processVCardLine {}

/-! ## Structured parsing and action synthesis (`parseContent`) -/

/-- Action kinds of `ContentAction.type`. -/
inductive ActionType where
  | copy | call | email | open | sms | navigate
deriving DecidableEq, Repr

/-- A user-facing action entry. -/
structure ContentAction where
  atype : ActionType
  label : String
  value : String
  icon : Option String := none
deriving DecidableEq, Repr

/-- The type-specific `data` payload of a `ParsedContent` (the source uses
`any`).  The geolocation payload keeps the captured coordinate strings;
the source's `parseFloat` conversion to host floating point is not
re-modelled, no claim depends on it. -/
inductive ParsedData where
  | nullData
  | contact (c : VCardContact)
  | urlData (url original : String)
  | emailData (e : String)
  | phoneData (p : String)
  | wifiData (security ssid password : String) (hidden : Bool)
  | geoData (lat lng : String)
  | smsData (number message : String)
  | textData (t : String)
deriving DecidableEq, Repr

/-- The `ParsedContent` record. -/
structure ParsedContent where
  ctype : ContentType
  data : ParsedData
  displayText : String
  actions : List ContentAction
deriving DecidableEq, Repr

/-- Attempt the WiFi regex `/WIFI:T:([^;]*);S:([^;]*);P:([^;]*);H:([^;]*);?/`
at the current position. -/
def wifiMatchAt (cs : List Char) : Option (String × String × String × String) :=
  if "WIFI:T:".toList.isPrefixOf cs then
    let r0 := cs.drop 7
    let t := r0.takeWhile (· ≠ ';')
    let r1 := r0.dropWhile (· ≠ ';')
    if ";S:".toList.isPrefixOf r1 then
      let r1 := r1.drop 3
      let s := r1.takeWhile (· ≠ ';')
      let r2 := r1.dropWhile (· ≠ ';')
      if ";P:".toList.isPrefixOf r2 then
        let r2 := r2.drop 3
        let p := r2.takeWhile (· ≠ ';')
        let r3 := r2.dropWhile (· ≠ ';')
        if ";H:".toList.isPrefixOf r3 then
          let h := (r3.drop 3).takeWhile (· ≠ ';')
          some (String.mk t, String.mk s, String.mk p, String.mk h)
        else none
      else none
    else none
  else none

/-- Unanchored search for the WiFi regex (JavaScript `String.match`). -/
def wifiSearch : List Char → Option (String × String × String × String)
  | [] => none
  | c :: t =>
    match wifiMatchAt (c :: t) with
    | some r => some r
    | none => wifiSearch t

/-- Capture `-?\d+\.?\d*` at the current position, returning the captured
characters and the remainder. -/
def signedDecCapture (cs : List Char) : Option (List Char × List Char) :=
  let sign : List Char := match cs with
    | '-' :: _ => ['-']
    | _ => []
  let cs' := cs.drop sign.length
  let ds := cs'.takeWhile Char.isDigit
  let rest := cs'.dropWhile Char.isDigit
  if ds.isEmpty then none
  else
    match rest with
    | '.' :: t =>
        some (sign ++ ds ++ '.' :: t.takeWhile Char.isDigit, t.dropWhile Char.isDigit)
    | _ => some (sign ++ ds, rest)

/-- Attempt `geo:(-?\d+\.?\d*),(-?\d+\.?\d*)` at the current position. -/
def geoMatchAt (cs : List Char) : Option (String × String) :=
  if "geo:".toList.isPrefixOf cs then
    match signedDecCapture (cs.drop 4) with
    | some (lat, ',' :: rest) =>
        match signedDecCapture rest with
        | some (lng, _) => some (String.mk lat, String.mk lng)
        | none => none
    | _ => none
  else none

/-- Unanchored search for the geo regex. -/
def geoSearch : List Char → Option (String × String)
  | [] => none
  | c :: t =>
    match geoMatchAt (c :: t) with
    | some r => some r
    | none => geoSearch t

/-- The JavaScript regex `.` class: anything but a line terminator. -/
def notLineTerm (c : Char) : Bool :=
  c ≠ '\n' && c ≠ '\r' && c.val ≠ 0x2028 && c.val ≠ 0x2029

/-- Attempt `(?:SMSTO:|sms:)([^:?]*)[?:]?(.*)` at the current position. -/
def smsMatchAt (cs : List Char) : Option (String × String) :=
  let core := fun (rest : List Char) =>
    let num := rest.takeWhile (fun c => c ≠ ':' && c ≠ '?')
    let r := rest.dropWhile (fun c => c ≠ ':' && c ≠ '?')
    let r := match r with
      | ':' :: t => t
      | '?' :: t => t
      | t => t
    some (String.mk num, String.mk (r.takeWhile notLineTerm))
  if "SMSTO:".toList.isPrefixOf cs then core (cs.drop 6)
  else if "sms:".toList.isPrefixOf cs then core (cs.drop 4)
  else none

/-- Unanchored search for the SMS regex. -/
def smsSearch : List Char → Option (String × String)
  | [] => none
  | c :: t =>
    match smsMatchAt (c :: t) with
    | some r => some r
    | none => smsSearch t

/-- The `encodeURIComponent` of the SMS action body.  Modelled as the
identity on the characters the claims exercise; no claim inspects an
encoded body. -/
def encodeComponent (s : String) : String := s

/-- The plain-text fallback result produced both by the `text`/`default`
switch arm (which truncates the display text) and by the trailing return
reached when a wifi/location/sms pattern match fails (which does not). -/
def textFallback (content : String) (truncate : Bool) : ParsedContent :=
  { ctype := .text
    data := .textData content
    displayText :=
      if truncate && content.toList.length > 100
      then String.mk (content.toList.take 100) ++ "..." else content
    actions := [⟨.copy, "Copy Text", content, some "clipboard"⟩] }

/-- Fallback display name from given/family. -/
def vcardFallbackName (c : VCardContact) : String :=
  match c.nameGiven, c.nameFamily with
  | some g, some f => if g = "" || f = "" then "Contact" else g ++ " " ++ f
  | _, _ => "Contact"

/-- The display name of the vCard branch: formatted name when truthy,
otherwise `given family` when both truthy, otherwise `"Contact"`. -/
def vcardDisplayName (c : VCardContact) : String :=
  match c.nameFormatted with
  | some f => if f = "" then vcardFallbackName c else f
  | none => vcardFallbackName c

/-- The action list of the vCard branch: one call action per phone (label
suffixed with the type unless it is falsy or `"phone"`), then at most one
email action, then the copy-vCard action with the whole payload. -/
def vcardActions (content : String) (c : VCardContact) : List ContentAction :=
  (c.phones.map (fun p =>
    let typeLabel := if p.etype ≠ "" && p.etype ≠ "phone" then " (" ++ p.etype ++ ")" else ""
    ContentAction.mk .call ("Call " ++ p.value ++ typeLabel) p.value (some "phone"))) ++
  (match c.emails with
    | e :: _ => [⟨.email, "Email " ++ e.value, e.value, some "envelope"⟩]
    | [] => []) ++
  [⟨.copy, "Copy vCard", content, some "clipboard"⟩]

/-- `parseContent` from `scan-content-utils.ts`.  Classifies with
`detectContentType` (via the external `urlOk`), then builds the per-type
structured data, display text and action list; all branch work operates on
the raw `content` exactly as the source does. -/
def parseContent (urlOk : String → Bool) (content : String) : ParsedContent :=
  match detectContentType urlOk content with
  | .empty =>
      { ctype := .empty, data := .nullData, displayText := "No content found", actions := [] }
  | .vcard =>
      let c := parseVCard content
      { ctype := .vcard, data := .contact c, displayText := vcardDisplayName c
        actions := vcardActions content c }
  | .url =>
      let processedUrl :=
        if !("http://".toList.isPrefixOf content.toList) &&
            !("https://".toList.isPrefixOf content.toList)
        then "https://" ++ content else content
      { ctype := .url, data := .urlData processedUrl content, displayText := content
        actions :=
          [⟨.open, "Open Website", processedUrl, some "external-link"⟩,
           ⟨.copy, "Copy URL", content, some "clipboard"⟩] }
  | .email =>
      let addr :=
        if "mailto:".toList.isPrefixOf content.toList
        then String.mk (content.toList.drop 7) else content
      { ctype := .email, data := .emailData addr, displayText := addr
        actions :=
          [⟨.email, "Send Email", addr, some "envelope"⟩,
           ⟨.copy, "Copy Email", addr, some "clipboard"⟩] }
  | .phone =>
      let num :=
        if "tel:".toList.isPrefixOf content.toList
        then String.mk (content.toList.drop 4) else content
      { ctype := .phone, data := .phoneData num, displayText := num
        actions :=
          [⟨.call, "Call Number", num, some "phone"⟩,
           ⟨.sms, "Send SMS", num, some "chat-bubble-left"⟩,
           ⟨.copy, "Copy Number", num, some "clipboard"⟩] }
  | .wifi =>
      match wifiSearch content.toList with
      | some (security, ssid, password, hidden) =>
          { ctype := .wifi, data := .wifiData security ssid password (hidden = "true")
            displayText := "WiFi: " ++ ssid
            actions := [⟨.copy, "Copy WiFi Info", content, some "clipboard"⟩] }
      | none => textFallback content false
  | .location =>
      match geoSearch content.toList with
      | some (lat, lng) =>
          { ctype := .location, data := .geoData lat lng
            displayText := "Location: " ++ lat ++ ", " ++ lng
            actions :=
              [⟨.navigate, "Open in Maps",
                 "https://maps.google.com/maps?q=" ++ lat ++ "," ++ lng, some "map-pin"⟩,
               ⟨.copy, "Copy Coordinates", lat ++ ", " ++ lng, some "clipboard"⟩] }
      | none => textFallback content false
  | .sms =>
      match smsSearch content.toList with
      | some (number, message) =>
          { ctype := .sms
            data := .smsData (jsTrimL number.toList |> String.mk) message
            displayText := "SMS to " ++ number ++ (if message ≠ "" then ": " ++ message else "")
            actions :=
              [⟨.sms, "Send SMS",
                 "sms:" ++ number ++
                   (if message ≠ "" then "?body=" ++ encodeComponent message else ""),
                 some "chat-bubble-left"⟩,
               ⟨.copy, "Copy Content", content, some "clipboard"⟩] }
      | none => textFallback content false
  | .text => textFallback content true

/-! ## Bitmaps and filters (`scan-preprocessing.ts`) -/

/-- An `ImageData`: width, height, and the flat row-major RGBA byte buffer.
The `Uint8ClampedArray` is a `List Nat`; well-formed images satisfy
`data.length = width * height * 4` (the `ImageData` constructor enforces
this in the host) with every entry at most 255. -/
structure Image where
  width : Nat
  height : Nat
  data : List Nat
deriving DecidableEq, Repr

/-- The `for (i = 0; i += 4)` per-pixel loop shape shared by the pointwise
filters: rewrite the R, G, B bytes of each quadruple, keep alpha.  A
trailing fragment shorter than a full quadruple is left unchanged (never
reached on well-formed images). -/
def mapRGB (f : Nat → Nat → Nat → Nat × Nat × Nat) : List Nat → List Nat
  | r :: g :: b :: a :: rest =>
      let q := f r g b
      q.1 :: q.2.1 :: q.2.2 :: a :: mapRGB f rest
  | rest => rest

/-- Numerator of the contrast factor
`(259 * (1.5 + 255)) / (255 * (259 - 1.5))` as an exact fraction
`132867 / 131325` (the host computes the factor in floating point; the
exact rational value is modelled here, and no claim depends on the
factor's low-order bits). -/
def contrastNum : ℤ := 132867

/-- Denominator of the exact contrast factor. -/
def contrastDen : ℤ := 131325

/-- One channel of the contrast filter:
`Math.min(255, Math.max(0, factor * (v - 128) + 128))` followed by the
`Uint8ClampedArray` store (round half to even), carried out exactly on the
fraction with denominator `contrastDen`. -/
def contrastChan (v : Nat) : Nat :=
  let t : ℤ := contrastNum * ((v : ℤ) - 128) + 128 * contrastDen
  let c : ℤ := min (255 * contrastDen) (max 0 t)
  let q : ℤ := c / contrastDen
  let r : ℤ := c % contrastDen
  (if 2 * r < contrastDen then q
   else if contrastDen < 2 * r then q + 1
   else if q % 2 = 0 then q else q + 1).toNat

/-- `preprocessingStrategies.enhancedContrast`. -/
def enhancedContrast (img : Image) : Image :=
  ⟨img.width, img.height,
    mapRGB (fun r g b => (contrastChan r, contrastChan g, contrastChan b)) img.data⟩

/-- `Math.round(0.299 r + 0.587 g + 0.114 b)`, the luma of a pixel, in exact
integer arithmetic (`Math.round` is floor of `x + 1/2` for the non-negative
values that occur). -/
def lumaRGB (r g b : Nat) : Nat := (299 * r + 587 * g + 114 * b + 500) / 1000

/-- `preprocessingStrategies.adaptiveHistogram` (the grayscale/luma filter). -/
def adaptiveHistogram (img : Image) : Image :=
  ⟨img.width, img.height,
    mapRGB (fun r g b => let l := lumaRGB r g b; (l, l, l)) img.data⟩

/-- The first loop of `binaryThreshold`: the sum of all pixel lumas. -/
def sumLuma : List Nat → Nat
  | r :: g :: b :: _ :: rest => lumaRGB r g b + sumLuma rest
  | _ => 0

/-- `preprocessingStrategies.binaryThreshold`: global mean-luma threshold
`threshold = sum / pixels`, every pixel mapped to 255 iff its luma exceeds
the threshold, replicated across R, G, B.  The source's floating-point test
`gray > sum / pixels` is modelled exactly by cross-multiplication
`gray * pixels > sum` (the test is only ever evaluated when a pixel exists,
so `pixels ≥ 1` and the two are equivalent; see
`binary_test_iff_mean_lt`). -/
def binaryThreshold (img : Image) : Image :=
  let pixels : Nat := img.data.length / 4
  let total : Nat := sumLuma img.data
  ⟨img.width, img.height,
    mapRGB (fun r g b =>
      let binary : Nat := if lumaRGB r g b * pixels > total then 255 else 0
      (binary, binary, binary)) img.data⟩

/-- `preprocessingStrategies.colorInversion` (`255 - value`; for in-range
bytes `Nat` subtraction agrees with the clamped store of the source). -/
def colorInversion (img : Image) : Image :=
  ⟨img.width, img.height, mapRGB (fun r g b => (255 - r, 255 - g, 255 - b)) img.data⟩

/-- Channel read `data[((y * width + x)) * 4 + c]`. -/
def chanAt (d : List Nat) (w x y c : Nat) : Nat := d.getD ((y * w + x) * 4 + c) 0

/-- The row-major list of interior pixel coordinates `(x, y)` visited by the
nested `for (y = 1; y < height - 1) for (x = 1; x < width - 1)` loops. -/
def interiorPositions (w h : Nat) : List (Nat × Nat) :=
  ((List.range (h - 2)).map (fun j => (List.range (w - 2)).map (fun i => (i + 1, j + 1)))).flatten

/-- Write the three colour channels of the pixel whose R-channel index is
`idx` (the source's three consecutive stores). -/
def writeRGB (d : List Nat) (idx r g b : Nat) : List Nat :=
  ((d.set idx r).set (idx + 1) g).set (idx + 2) b

/-- The 3x3 sharpening kernel sum for one channel, read from buffer `d`
(the source reads the *working* buffer, which earlier iterations of the
same pass have already overwritten). -/
def sharpenConv (d : List Nat) (w x y c : Nat) : ℤ :=
  9 * (chanAt d w x y c : ℤ)
    - (chanAt d w (x - 1) (y - 1) c : ℤ) - (chanAt d w x (y - 1) c : ℤ)
    - (chanAt d w (x + 1) (y - 1) c : ℤ) - (chanAt d w (x - 1) y c : ℤ)
    - (chanAt d w (x + 1) y c : ℤ) - (chanAt d w (x - 1) (y + 1) c : ℤ)
    - (chanAt d w x (y + 1) c : ℤ) - (chanAt d w (x + 1) (y + 1) c : ℤ)

/-- `Math.min(255, Math.max(0, v))` on the integer kernel sum. -/
def clampInt255 (v : ℤ) : Nat := (min 255 (max 0 v)).toNat

/-- One interior step of `sharpening`: compute the three clamped kernel sums
from the current buffer and store them in place. -/
def sharpenStep (w : Nat) (d : List Nat) (p : Nat × Nat) : List Nat :=
  writeRGB d ((p.2 * w + p.1) * 4)
    (clampInt255 (sharpenConv d w p.1 p.2 0))
    (clampInt255 (sharpenConv d w p.1 p.2 1))
    (clampInt255 (sharpenConv d w p.1 p.2 2))

/-- `preprocessingStrategies.sharpening`: 3x3 kernel
`[-1,-1,-1,-1,9,-1,-1,-1,-1]` over the interior, computed in place on the
working copy (no frozen snapshot), border untouched. -/
def sharpening (img : Image) : Image :=
  ⟨img.width, img.height,
    (interiorPositions img.width img.height).foldl (sharpenStep img.width) img.data⟩

/-- The nine neighbourhood lumas read by the erosion filter at an interior
pixel, in source order (`dy` outer, `dx` inner), from the frozen buffer. -/
def neighborLumas (d : List Nat) (w x y : Nat) : List Nat :=
  [(x - 1, y - 1), (x, y - 1), (x + 1, y - 1),
   (x - 1, y), (x, y), (x + 1, y),
   (x - 1, y + 1), (x, y + 1), (x + 1, y + 1)].map
    (fun q => lumaRGB (chanAt d w q.1 q.2 0) (chanAt d w q.1 q.2 1) (chanAt d w q.1 q.2 2))

/-- `minVal`: 255 folded with `Math.min` over the nine neighbourhood lumas. -/
def erodedMin (d : List Nat) (w x y : Nat) : Nat :=
  (neighborLumas d w x y).foldl min 255

/-- One interior step of `morphological`: the minimum is computed from the
frozen snapshot `temp`, and written into the working buffer `d`. -/
def erodeStep (temp : List Nat) (w : Nat) (d : List Nat) (p : Nat × Nat) : List Nat :=
  let m := erodedMin temp w p.1 p.2
  writeRGB d ((p.2 * w + p.1) * 4) m m m

/-- `preprocessingStrategies.morphological`: 3x3 minimum filter over luma,
neighbourhood values taken from the frozen copy `temp` of the input, border
untouched. -/
def morphological (img : Image) : Image :=
  ⟨img.width, img.height,
    (interiorPositions img.width img.height).foldl (erodeStep img.data img.width) img.data⟩

/-! ## The strategy pipeline (`processImage`) -/

/-- One entry of `processingStrategies`. -/
structure Strategy where
  name : String
  progress : Nat
  fn : Image → Image

instance : Inhabited Strategy := ⟨⟨"", 0, id⟩⟩

/-- The ordered `processingStrategies` list (the identity pass first). -/
def processingStrategies : List Strategy :=
  [⟨"Direct Detection", 65, id⟩,
   ⟨"Enhanced Contrast", 70, enhancedContrast⟩,
   ⟨"Adaptive Histogram", 75, adaptiveHistogram⟩,
   ⟨"Binary Threshold", 80, binaryThreshold⟩,
   ⟨"Sharpening", 85, sharpening⟩,
   ⟨"Color Inversion", 90, colorInversion⟩,
   ⟨"Morphological", 95, morphological⟩]

/-- An external decode attempt either raises a fault (`Except.error`), finds
no pattern (`.ok none`), or returns a decode result `.ok (some r)`. -/
def isDecodeSuccess {R : Type} : Except Unit (Option R) → Bool
  | .ok (some _) => true
  | _ => false

/-- The strategy loop of `processImage` over an arbitrary strategy list:
report progress, filter the *original* bitmap, invoke the external decoder;
stop on the first decode result, swallow faults and no-results alike, and
return the progress trace that the `onProgress` callback observed. -/
def runStrategies {R : Type} (img : Image) (decode : Image → Except Unit (Option R)) :
    List Strategy → Option R × List (Nat × String)
  | [] => (none, [])
  | s :: rest =>
    match decode (s.fn img) with
    | .ok (some r) => (some r, [(s.progress, s.name)])
    | _ =>
      let next := runStrategies img decode rest
      (next.1, (s.progress, s.name) :: next.2)

/-- `processImage`: run the seven strategies in their fixed order against
the unmodified source bitmap; the external decoder and the progress callback
are the explicit parameters/trace. -/
def processImage {R : Type} (img : Image) (decode : Image → Except Unit (Option R)) :
    Option R × List (Nat × String) :=
  runStrategies img decode processingStrategies

/-- The decode attempt the pipeline makes at strategy index `k` of a
strategy list. -/
def attemptAt {R : Type} (img : Image) (decode : Image → Except Unit (Option R))
    (ss : List Strategy) (k : Nat) : Except Unit (Option R) :=
  decode ((ss.getD k default).fn img)

/-- The progress trace `(progress, name)` of a strategy list. -/
def progressTrace (ss : List Strategy) : List (Nat × String) :=
  ss.map (fun s => (s.progress, s.name))

/-! ## Proof-support definitions -/

/-- Number of pixels whose luma passes the threshold test
`luma * pixels > total` (support for the binary-threshold analysis). -/
def countWhite (total pixels : Nat) : List Nat → Nat
  | r :: g :: b :: _ :: rest =>
      (if lumaRGB r g b * pixels > total then 1 else 0) + countWhite total pixels rest
  | _ => 0

/-- A one-pixel black bitmap used as witness input. -/
def pipelineWitnessImg : Image := ⟨1, 1, [0, 0, 0, 255]⟩

/-- A witness decoder: succeeds exactly when the first byte is 255 (which
among the seven filtered variants of the black pixel happens first for the
colour-inversion strategy). -/
def pipelineWitnessDecode (im : Image) : Except Unit (Option Nat) :=
  if im.data.getD 0 0 = 255 then .ok (some 0) else .ok none

/-- The contact-card round-trip payload of the spec. -/
def vcJane : String := "BEGIN:VCARD\nFN:Jane Doe\nTEL;TYPE=CELL:555-1234\nEND:VCARD"

/-- The common shape of the two interior-loop bodies (`sharpenStep`,
`erodeStep`): write three computed colour channels of the pixel at `p`. -/
def writeStep (w : Nat) (v1 v2 v3 : List Nat → Nat × Nat → Nat)
    (d : List Nat) (p : Nat × Nat) : List Nat :=
  writeRGB d ((p.2 * w + p.1) * 4) (v1 d p) (v2 d p) (v3 d p)

/-- 4x3 bitmap refuting "sharpen reads original neighbours": R channel is
200 at (1,1) and 50 at (2,1), zero elsewhere, alpha 255. -/
def sharpenCexImg : Image :=
  ⟨4, 3,
    [0, 0, 0, 255, 0, 0, 0, 255, 0, 0, 0, 255, 0, 0, 0, 255,
     0, 0, 0, 255, 200, 0, 0, 255, 50, 0, 0, 255, 0, 0, 0, 255,
     0, 0, 0, 255, 0, 0, 0, 255, 0, 0, 0, 255, 0, 0, 0, 255]⟩

/-- One-pixel witness image for the binary-threshold claim. -/
def bwWitnessImg : Image := ⟨1, 1, [10, 20, 30, 40]⟩

/-- 3x3 witness image for the convolution-filter claims. -/
def convWitnessImg : Image := ⟨3, 3, List.replicate 36 7⟩

/-- 2x1 witness image for the dimension/alpha claims. -/
def dimWitnessImg : Image := ⟨2, 1, [1, 2, 3, 4, 5, 6, 7, 8]⟩

/-! # Theorems -/

/-! ## C1: strategy pipeline order, fault tolerance, explicit not-found -/

theorem length_processingStrategies : processingStrategies.length = 7 := rfl

theorem attemptAt_cons_succ {R : Type} (img : Image) (decode : Image → Except Unit (Option R))
    (s : Strategy) (ss : List Strategy) (k : Nat) :
    attemptAt img decode (s :: ss) (k + 1) = attemptAt img decode ss k := by
  simp [attemptAt, List.getD_cons_succ]

theorem attemptAt_cons_zero {R : Type} (img : Image) (decode : Image → Except Unit (Option R))
    (s : Strategy) (ss : List Strategy) :
    attemptAt img decode (s :: ss) 0 = decode (s.fn img) := by
  simp [attemptAt, List.getD_cons_zero]

theorem runStrategies_cons_fail {R : Type} (img : Image)
    (decode : Image → Except Unit (Option R)) (s : Strategy) (rest : List Strategy)
    (h : isDecodeSuccess (decode (s.fn img)) = false) :
    runStrategies img decode (s :: rest) =
      ((runStrategies img decode rest).1,
        (s.progress, s.name) :: (runStrategies img decode rest).2) := by
  match e : decode (s.fn img) with
  | .error u => simp [runStrategies, e]
  | .ok none => simp [runStrategies, e]
  | .ok (some r) => rw [e] at h; simp [isDecodeSuccess] at h

theorem runStrategies_cons_succ {R : Type} (img : Image)
    (decode : Image → Except Unit (Option R)) (s : Strategy) (rest : List Strategy)
    (r : R) (h : decode (s.fn img) = .ok (some r)) :
    runStrategies img decode (s :: rest) = (some r, [(s.progress, s.name)]) := by
  simp [runStrategies, h]

theorem runStrategies_first_success {R : Type} (img : Image)
    (decode : Image → Except Unit (Option R)) :
    ∀ (ss : List Strategy) (k : Nat) (r : R), k < ss.length →
      (∀ i, i < k → isDecodeSuccess (attemptAt img decode ss i) = false) →
      attemptAt img decode ss k = .ok (some r) →
      runStrategies img decode ss = (some r, progressTrace (ss.take (k + 1))) := by
  intro ss
  induction ss with
  | nil => intro k r hk; exact absurd hk (by simp)
  | cons s rest ih =>
    intro k r hk hfail hsucc
    match k with
    | 0 =>
      rw [attemptAt_cons_zero] at hsucc
      rw [runStrategies_cons_succ img decode s rest r hsucc]
      simp [progressTrace]
    | k + 1 =>
      have h0 : isDecodeSuccess (decode (s.fn img)) = false := by
        have := hfail 0 (Nat.succ_pos k)
        rwa [attemptAt_cons_zero] at this
      rw [runStrategies_cons_fail img decode s rest h0]
      have hrest : runStrategies img decode rest = (some r, progressTrace (rest.take (k + 1))) := by
        refine ih k r (by simpa using hk) (fun i hi => ?_) ?_
        · have := hfail (i + 1) (by omega)
          rwa [attemptAt_cons_succ] at this
        · rw [← attemptAt_cons_succ img decode s]; exact hsucc
      rw [hrest]
      simp [progressTrace, List.take_succ_cons]

theorem runStrategies_all_fail {R : Type} (img : Image)
    (decode : Image → Except Unit (Option R)) :
    ∀ ss : List Strategy,
      (∀ i, i < ss.length → isDecodeSuccess (attemptAt img decode ss i) = false) →
      runStrategies img decode ss = (none, progressTrace ss) := by
  intro ss
  induction ss with
  | nil => intro _; simp [runStrategies, progressTrace]
  | cons s rest ih =>
    intro hfail
    have h0 : isDecodeSuccess (decode (s.fn img)) = false := by
      have := hfail 0 (by simp)
      rwa [attemptAt_cons_zero] at this
    rw [runStrategies_cons_fail img decode s rest h0]
    have hrest := ih (fun i hi => by
      have := hfail (i + 1) (by simpa using Nat.succ_lt_succ hi)
      rwa [attemptAt_cons_succ] at this)
    rw [hrest]
    simp [progressTrace]

/-- C1.  For every source bitmap and every external decoder behaviour, the
pipeline tries the seven strategies in their fixed order, each applied to
the unmodified original bitmap (`attemptAt` filters `img` itself): when the
first `k` attempts fail (no result or a swallowed fault) and attempt `k`
decodes, the pipeline stops with that result after reporting exactly the
first `k + 1` strategies to the progress callback; when all seven attempts
fail, it returns the explicit not-found outcome `none` after reporting all
seven strategies. -/
theorem processImage_strategy_order {R : Type} (img : Image)
    (decode : Image → Except Unit (Option R)) :
    (∀ k, k < 7 →
      (∀ i, i < k → isDecodeSuccess (attemptAt img decode processingStrategies i) = false) →
      ∀ r, attemptAt img decode processingStrategies k = .ok (some r) →
        processImage img decode = (some r, progressTrace (processingStrategies.take (k + 1)))) ∧
    ((∀ i, i < 7 → isDecodeSuccess (attemptAt img decode processingStrategies i) = false) →
      processImage img decode = (none, progressTrace processingStrategies)) := by
  constructor
  · intro k hk hfail r hsucc
    exact runStrategies_first_success img decode processingStrategies k r
      (by rw [length_processingStrategies]; exact hk) hfail hsucc
  · intro hfail
    exact runStrategies_all_fail img decode processingStrategies
      (by rw [length_processingStrategies]; exact hfail)

/-- Witness for C1: on a black one-pixel bitmap with a decoder that succeeds
exactly on a white first byte, the first five strategies fail, colour
inversion (index 5) succeeds, and the pipeline returns its result with the
six-strategy progress trace. -/
theorem processImage_strategy_order_witness :
    ((5 : Nat) < 7 ∧
      (∀ i, i < 5 →
        isDecodeSuccess (attemptAt pipelineWitnessImg pipelineWitnessDecode processingStrategies i)
          = false) ∧
      attemptAt pipelineWitnessImg pipelineWitnessDecode processingStrategies 5
        = .ok (some 0)) ∧
    processImage pipelineWitnessImg pipelineWitnessDecode
      = (some 0, progressTrace (processingStrategies.take 6)) :=
  ⟨⟨by decide, by decide, rfl⟩,
    (processImage_strategy_order pipelineWitnessImg pipelineWitnessDecode).1 5 (by decide)
      (by decide) 0 rfl⟩

/-! ## C2: classification is total and deterministic -/

/-- C2.  Classification is total and deterministic: every string — for every
behaviour of the external URL parser — maps to exactly one of the nine
content-type tags (the classifier is a function into the closed
`ContentType` enumeration), and the three reference payloads classify as
claimed: `"mailto:a@b.com"` → email, `""` → empty, a well-formed `WIFI:`
payload → wifi; none of the three reaches the URL step, so they hold for
every `urlOk`. -/
theorem detectContentType_total_deterministic :
    (∀ (urlOk : String → Bool) (s : String),
      ∃! t : ContentType, detectContentType urlOk s = t) ∧
    (∀ urlOk : String → Bool,
      detectContentType urlOk "mailto:a@b.com" = ContentType.email ∧
      detectContentType urlOk "" = ContentType.empty ∧
      detectContentType urlOk "WIFI:T:WPA;S:Home;P:secret;H:false;" = ContentType.wifi) := by
  constructor
  · intro urlOk s
    exact ⟨detectContentType urlOk s, rfl, fun y hy => hy.symm⟩
  · intro urlOk
    exact ⟨rfl, rfl, rfl⟩

/-! ## C3: the phone-number rule -/

theorem phoneTailMatch_iff (cs : List Char) :
    ∀ n, phoneTailMatch n cs = true ↔
      (∀ c ∈ cs, phoneClass c = true) ∧ 10 ≤ n + cs.length := by
  induction cs with
  | nil => intro n; simp [phoneTailMatch]
  | cons c t ih =>
    intro n
    rw [phoneTailMatch, Bool.and_eq_true, ih (n + 1)]
    simp only [List.forall_mem_cons, List.length_cons]
    constructor
    · rintro ⟨hc, hall, hlen⟩; exact ⟨⟨hc, hall⟩, by omega⟩
    · rintro ⟨⟨hc, hall⟩, hlen⟩; exact ⟨hc, hall, by omega⟩

theorem phonePatternTest_iff (cs : List Char) :
    phonePatternTest cs = true ↔
      ∃ body : List Char, (cs = '+' :: body ∨ cs = body) ∧
        10 ≤ body.length ∧ ∀ c ∈ body, phoneClass c = true := by
  have hplus : phoneClass '+' = false := by decide
  rcases cs with _ | ⟨c, rest⟩
  · constructor
    · intro h
      rw [show phonePatternTest [] = false from rfl] at h
      exact absurd h (by simp)
    · rintro ⟨body, (h | h), hlen, -⟩
      · exact List.noConfusion h
      · rw [← h] at hlen; simp at hlen
  · by_cases hc : c = '+'
    · subst hc
      rw [show phonePatternTest ('+' :: rest) = phoneTailMatch 0 rest from rfl,
        phoneTailMatch_iff]
      constructor
      · rintro ⟨hall, hlen⟩; exact ⟨rest, Or.inl rfl, by omega, hall⟩
      · rintro ⟨body, (h | h), hlen, hall⟩
        · injection h with h1 h2; rw [← h2] at hall hlen; exact ⟨hall, by omega⟩
        · exfalso
          have := hall '+' (h ▸ List.mem_cons_self '+' rest)
          rw [hplus] at this; exact Bool.false_ne_true this
    · have hmatch : phonePatternTest (c :: rest) = phoneTailMatch 0 (c :: rest) := by
        rw [phonePatternTest]
        simp only [List.head?_cons, List.tail_cons]
        rw [if_neg (by simpa using hc)]
      rw [hmatch, phoneTailMatch_iff]
      constructor
      · rintro ⟨hall, hlen⟩; exact ⟨c :: rest, Or.inr rfl, by omega, hall⟩
      · rintro ⟨body, (h | h), hlen, hall⟩
        · injection h with h1 _; exact absurd h1 hc
        · rw [h]; exact ⟨hall, by omega⟩

/-- C3 counterexample.  `"1-2-3-4-56"` consists only of phone-alphabet
characters and contains just six digits — fewer than ten — yet the
classifier returns phone-number, because the regex `{10,}` counts class
characters (digits, whitespace, hyphens, parentheses), not digits. -/
theorem phone_ten_digits_counterexample :
    detectContentType hostUrlOk "1-2-3-4-56" = ContentType.phone ∧
    ("1-2-3-4-56".toList.filter Char.isDigit).length = 6 ∧
    "1-2-3-4-56".toList.all phoneClass = true := by
  exact ⟨by decide, by decide, by decide⟩

/-- C3 (amended).  For every non-empty trimmed string that does not match
the earlier precedence rules (vCard, `WIFI:`, `SMSTO:`/`sms:` prefixes) and
for every external-URL-parser behaviour, the classifier returns
phone-number exactly when the string starts with `tel:` or is phone-shaped:
an optional leading `+` followed only by digits, whitespace, hyphens and
parentheses, with at least ten such characters after the optional `+`
(at least ten characters of that alphabet, not ten digits). -/
theorem detectContentType_phone_rule (urlOk : String → Bool) (s : String)
    (htrim : jsTrimL s.toList = s.toList) (hne : s.toList ≠ [])
    (hvc : ("BEGIN:VCARD".toList.isPrefixOf s.toList &&
      infixOf "END:VCARD".toList s.toList) = false)
    (hwifi : "WIFI:".toList.isPrefixOf s.toList = false)
    (hsmsto : "SMSTO:".toList.isPrefixOf s.toList = false)
    (hsms : "sms:".toList.isPrefixOf s.toList = false) :
    detectContentType urlOk s = ContentType.phone ↔
      ("tel:".toList.isPrefixOf s.toList = true ∨
        ∃ body : List Char, (s.toList = '+' :: body ∨ s.toList = body) ∧
          10 ≤ body.length ∧ ∀ c ∈ body, phoneClass c = true) := by
  have hempty : (s.toList).isEmpty = false := by
    cases h : s.toList with
    | nil => exact absurd h hne
    | cons a t => rfl
  rw [detectContentType]
  simp only [htrim, hempty, hvc, hwifi, hsmsto, hsms, Bool.false_eq_true, if_false,
    Bool.or_self, Bool.or_false]
  by_cases hcond : (phonePatternTest s.toList || "tel:".toList.isPrefixOf s.toList) = true
  · rw [if_pos hcond]
    simp only [true_iff]
    rcases Bool.or_eq_true _ _ |>.mp hcond with h | h
    · exact Or.inr ((phonePatternTest_iff s.toList).mp h)
    · exact Or.inl h
  · rw [if_neg hcond]
    constructor
    · intro h
      exfalso
      split at h <;> try exact ContentType.noConfusion h
      split at h <;> try exact ContentType.noConfusion h
      split at h <;> try exact ContentType.noConfusion h
      split at h <;> exact ContentType.noConfusion h
    · intro h
      exfalso
      apply hcond
      rcases h with h | h
      · exact Bool.or_eq_true _ _ |>.mpr (Or.inr h)
      · exact Bool.or_eq_true _ _ |>.mpr (Or.inl ((phonePatternTest_iff s.toList).mpr h))

/-- Witness for C3 (amended): `"0123456789"` satisfies every hypothesis,
and the biconditional holds for it via the theorem. -/
theorem detectContentType_phone_rule_witness :
    (jsTrimL "0123456789".toList = "0123456789".toList ∧ "0123456789".toList ≠ [] ∧
      ("BEGIN:VCARD".toList.isPrefixOf "0123456789".toList &&
        infixOf "END:VCARD".toList "0123456789".toList) = false ∧
      "WIFI:".toList.isPrefixOf "0123456789".toList = false ∧
      "SMSTO:".toList.isPrefixOf "0123456789".toList = false ∧
      "sms:".toList.isPrefixOf "0123456789".toList = false) ∧
    (detectContentType hostUrlOk "0123456789" = ContentType.phone ↔
      ("tel:".toList.isPrefixOf "0123456789".toList = true ∨
        ∃ body : List Char, ("0123456789".toList = '+' :: body ∨ "0123456789".toList = body) ∧
          10 ≤ body.length ∧ ∀ c ∈ body, phoneClass c = true)) :=
  ⟨⟨by decide, by decide, by decide, by decide, by decide, by decide⟩,
    detectContentType_phone_rule hostUrlOk "0123456789" (by decide) (by decide) (by decide)
      (by decide) (by decide) (by decide)⟩

/-! ## C7: vCard round-trip and TEL-type normalization -/

/-- C7 counterexample.  A `TEL` line with no `TYPE` parameter gets phone
type `"default"` (the `typeParam || 'default'` fallback makes the
`if (typeParam)` guard always truthy, so the claimed `'phone'` default is
dead code), and a `TEL` line whose `TYPE` matches none of the priority
substrings falls back to the first comma-separated token of the
*lowercased* parameter — `"x-foo"`, not the raw `"X-Foo"`. -/
theorem parseVCard_tel_type_counterexample :
    (parseVCard "BEGIN:VCARD\nTEL:1\nEND:VCARD").phones = [⟨"default", "1"⟩] ∧
    "default" ≠ "phone" ∧
    (parseVCard "BEGIN:VCARD\nTEL;TYPE=X-Foo:2\nEND:VCARD").phones = [⟨"x-foo", "2"⟩] ∧
    "x-foo" ≠ "X-Foo" :=
  ⟨by decide, by decide, by decide, by decide⟩

/-- C7 (amended).  Parsing the Jane Doe vCard yields formatted name
`"Jane Doe"` and exactly one phone entry of type `"mobile"` with value
`"555-1234"`; for every URL-parser behaviour the synthesized action list's
first entry is a call action with value `"555-1234"`.  A `TEL` line's type
is normalized by scanning the lowercased `TYPE` parameter for cell/mobile,
then work, then home, then fax, falling back to the first comma-separated
token of the *lowercased* parameter (trimmed), and to `"default"` when the
`TYPE` parameter is absent; the branches are exercised on representative
inputs. -/
theorem parseVCard_roundtrip_tel_types :
    ((parseVCard vcJane).nameFormatted = some "Jane Doe" ∧
      (parseVCard vcJane).phones = [⟨"mobile", "555-1234"⟩]) ∧
    (∀ urlOk : String → Bool,
      (parseContent urlOk vcJane).actions.head? =
        some ⟨.call, "Call 555-1234 (mobile)", "555-1234", some "phone"⟩) ∧
    ((parseVCard "BEGIN:VCARD\nTEL;TYPE=WORK,CELL:3\nEND:VCARD").phones
        = [⟨"mobile", "3"⟩] ∧
      (parseVCard "BEGIN:VCARD\nTEL;TYPE=FAX,WORK:4\nEND:VCARD").phones
        = [⟨"work", "4"⟩] ∧
      (parseVCard "BEGIN:VCARD\nTEL;TYPE=PAGER,HOME:5\nEND:VCARD").phones
        = [⟨"home", "5"⟩] ∧
      (parseVCard "BEGIN:VCARD\nTEL;TYPE=CELL,FAX:6\nEND:VCARD").phones
        = [⟨"mobile", "6"⟩] ∧
      (parseVCard "BEGIN:VCARD\nTEL;TYPE=PAGER, FOO:7\nEND:VCARD").phones
        = [⟨"pager", "7"⟩] ∧
      (parseVCard "BEGIN:VCARD\nTEL:8\nEND:VCARD").phones = [⟨"default", "8"⟩]) :=
  ⟨⟨by decide, by decide⟩, fun urlOk => rfl,
    by decide, by decide, by decide, by decide, by decide, by decide⟩

/-! ## C8: web-link actions -/

/-- C8 counterexample.  `"ftp://example.com"` is classified web-link (the
host URL parser accepts it — it has a scheme), yet the first action's value
is `"https://ftp://example.com"`, not the payload itself: the source only
recognizes the `http://` and `https://` prefixes, not URL schemes in
general. -/
theorem parseContent_scheme_counterexample :
    detectContentType hostUrlOk "ftp://example.com" = ContentType.url ∧
    hostUrlOk "ftp://example.com" = true ∧
    (parseContent hostUrlOk "ftp://example.com").actions.head? =
      some ⟨.open, "Open Website", "https://ftp://example.com", some "external-link"⟩ ∧
    "https://ftp://example.com" ≠ "ftp://example.com" :=
  ⟨by decide, by decide, by decide, by decide⟩

/-- C8 (amended).  For every payload classified as web-link, the parsed
result's actions are exactly an open action followed by a copy action
carrying the original text; the open action's value is the payload itself
when the payload starts with `http://` or `https://`, and `"https://"`
prepended to the payload otherwise — even when the payload carries some
other URL scheme. -/
theorem parseContent_weblink_actions (urlOk : String → Bool) (content : String)
    (h : detectContentType urlOk content = ContentType.url) :
    (parseContent urlOk content).actions =
      [⟨.open, "Open Website",
         (if !("http://".toList.isPrefixOf content.toList) &&
              !("https://".toList.isPrefixOf content.toList)
          then "https://" ++ content else content), some "external-link"⟩,
       ⟨.copy, "Copy URL", content, some "clipboard"⟩] := by
  unfold parseContent
  rw [h]

/-- Witness for C8 (amended): `"example.com"` classifies as web-link under
the concrete host URL parser, and its action list is given by the
theorem. -/
theorem parseContent_weblink_actions_witness :
    detectContentType hostUrlOk "example.com" = ContentType.url ∧
    (parseContent hostUrlOk "example.com").actions =
      [⟨.open, "Open Website",
         (if !("http://".toList.isPrefixOf "example.com".toList) &&
              !("https://".toList.isPrefixOf "example.com".toList)
          then "https://" ++ "example.com" else "example.com"), some "external-link"⟩,
       ⟨.copy, "Copy URL", "example.com", some "clipboard"⟩] :=
  ⟨by decide, parseContent_weblink_actions hostUrlOk "example.com" (by decide)⟩

/-! ## Quad-map lemmas -/

theorem length_mapRGB (f : Nat → Nat → Nat → Nat × Nat × Nat) (l : List Nat) :
    (mapRGB f l).length = l.length := by
  induction l using mapRGB.induct f with
  | case1 r g b a rest ih => simp [mapRGB, ih]
  | case2 rest h => simp [mapRGB]

theorem getD_cons4 (x y z w : Nat) (rest : List Nat) (n : Nat) :
    (x :: y :: z :: w :: rest).getD (n + 4) 0 = rest.getD n 0 := by
  have h : n + 4 = n + 1 + 1 + 1 + 1 := by omega
  rw [h, List.getD_cons_succ, List.getD_cons_succ, List.getD_cons_succ, List.getD_cons_succ]

theorem getD_mapRGB (f : Nat → Nat → Nat → Nat × Nat × Nat) :
    ∀ (i : Nat) (l : List Nat), 4 * i + 3 < l.length →
      (mapRGB f l).getD (4 * i) 0
          = (f (l.getD (4 * i) 0) (l.getD (4 * i + 1) 0) (l.getD (4 * i + 2) 0)).1 ∧
        (mapRGB f l).getD (4 * i + 1) 0
          = (f (l.getD (4 * i) 0) (l.getD (4 * i + 1) 0) (l.getD (4 * i + 2) 0)).2.1 ∧
        (mapRGB f l).getD (4 * i + 2) 0
          = (f (l.getD (4 * i) 0) (l.getD (4 * i + 1) 0) (l.getD (4 * i + 2) 0)).2.2 ∧
        (mapRGB f l).getD (4 * i + 3) 0 = l.getD (4 * i + 3) 0 := by
  intro i
  induction i with
  | zero =>
    intro l hl
    match l, hl with
    | r :: g :: b :: a :: rest, _ =>
      refine ⟨rfl, rfl, rfl, rfl⟩
  | succ i ih =>
    intro l hl
    match l, hl with
    | r :: g :: b :: a :: rest, hl =>
      have hrest : 4 * i + 3 < rest.length := by
        simp only [List.length_cons] at hl; omega
      obtain ⟨h0, h1, h2, h3⟩ := ih rest hrest
      have e0 : 4 * (i + 1) = 4 * i + 4 := by omega
      have e1 : 4 * i + 4 + 1 = 4 * i + 1 + 4 := by omega
      have e2 : 4 * i + 4 + 2 = 4 * i + 2 + 4 := by omega
      have e3 : 4 * i + 4 + 3 = 4 * i + 3 + 4 := by omega
      have hmap : mapRGB f (r :: g :: b :: a :: rest)
          = (f r g b).1 :: (f r g b).2.1 :: (f r g b).2.2 :: a :: mapRGB f rest := rfl
      rw [hmap]
      simp only [e0, e1, e2, e3, getD_cons4]
      exact ⟨h0, h1, h2, h3⟩

theorem mapRGB_fixpoint (f f2 : Nat → Nat → Nat → Nat × Nat × Nat)
    (hfix : ∀ r g b, f2 (f r g b).1 (f r g b).2.1 (f r g b).2.2 = f r g b) (l : List Nat) :
    mapRGB f2 (mapRGB f l) = mapRGB f l := by
  induction l using mapRGB.induct f with
  | case1 r g b a rest ih =>
    rw [show mapRGB f (r :: g :: b :: a :: rest)
        = (f r g b).1 :: (f r g b).2.1 :: (f r g b).2.2 :: a :: mapRGB f rest from rfl]
    rw [show mapRGB f2 ((f r g b).1 :: (f r g b).2.1 :: (f r g b).2.2 :: a :: mapRGB f rest)
        = (f2 (f r g b).1 (f r g b).2.1 (f r g b).2.2).1
          :: (f2 (f r g b).1 (f r g b).2.1 (f r g b).2.2).2.1
          :: (f2 (f r g b).1 (f r g b).2.1 (f r g b).2.2).2.2
          :: a :: mapRGB f2 (mapRGB f rest) from rfl]
    rw [ih, hfix]
  | case2 rest h =>
    match rest, h with
    | [], _ => rfl
    | [x], _ => rfl
    | [x, y], _ => rfl
    | [x, y, z], _ => rfl
    | x :: y :: z :: w :: t, h => exact absurd rfl (h x y z w t)

/-! ## C4: binary threshold is two-valued against the mean, and idempotent -/

/-- The cross-multiplied threshold test of `binaryThreshold` is exactly the
source's `gray > sum / pixels` comparison, read over exact rationals. -/
theorem binary_test_iff_mean_lt (luma total n : Nat) (hn : 0 < n) :
    luma * n > total ↔ (total : ℚ) / (n : ℚ) < (luma : ℚ) := by
  rw [div_lt_iff₀ (by exact_mod_cast hn)]
  exact_mod_cast Iff.rfl

theorem sumLuma_mapRGB_bt (total pixels : Nat) (l : List Nat) :
    sumLuma (mapRGB (fun r g b =>
        let binary : Nat := if lumaRGB r g b * pixels > total then 255 else 0
        (binary, binary, binary)) l)
      = 255 * countWhite total pixels l := by
  induction l using mapRGB.induct
      (fun r g b =>
        let binary : Nat := if lumaRGB r g b * pixels > total then 255 else 0
        (binary, binary, binary)) with
  | case1 r g b a rest ih =>
    rw [show ∀ q : List Nat, mapRGB (fun r g b =>
          let binary : Nat := if lumaRGB r g b * pixels > total then 255 else 0
          (binary, binary, binary)) (r :: g :: b :: a :: q)
        = (if lumaRGB r g b * pixels > total then 255 else 0)
          :: (if lumaRGB r g b * pixels > total then 255 else 0)
          :: (if lumaRGB r g b * pixels > total then 255 else 0)
          :: a :: mapRGB (fun r g b =>
            let binary : Nat := if lumaRGB r g b * pixels > total then 255 else 0
            (binary, binary, binary)) q from fun q => rfl]
    rw [sumLuma, ih, countWhite]
    by_cases hc : lumaRGB r g b * pixels > total
    · rw [if_pos hc, if_pos hc]
      have h255 : lumaRGB 255 255 255 = 255 := by decide
      rw [h255]; ring
    · rw [if_neg hc, if_neg hc]
      have h0 : lumaRGB 0 0 0 = 0 := by decide
      rw [h0]; ring
  | case2 rest h =>
    match rest, h with
    | [], _ => rfl
    | [x], _ => rfl
    | [x, y], _ => rfl
    | [x, y, z], _ => rfl
    | x :: y :: z :: w :: t, h => exact absurd rfl (h x y z w t)

theorem countWhite_le (total pixels : Nat) (l : List Nat) :
    countWhite total pixels l ≤ l.length / 4 := by
  induction l using countWhite.induct total pixels with
  | case1 r g b a rest ih =>
    rw [countWhite]
    have hlen : (r :: g :: b :: a :: rest).length = rest.length + 4 := by
      simp
    rw [hlen, Nat.add_div_right _ (by omega)]
    by_cases hc : lumaRGB r g b * pixels > total
    · rw [if_pos hc]; omega
    · rw [if_neg hc]; omega
  | case2 rest h =>
    match rest, h with
    | [], _ => simp [countWhite]
    | [x], _ => simp [countWhite]
    | [x, y], _ => simp [countWhite]
    | [x, y, z], _ => simp [countWhite]
    | x :: y :: z :: w :: t, h => exact absurd rfl (h x y z w t)

theorem sumLuma_lower_of_all_white (total pixels : Nat) :
    ∀ l : List Nat, countWhite total pixels l = l.length / 4 →
      (l.length / 4) * (total + 1) ≤ sumLuma l * pixels := by
  intro l
  induction l using countWhite.induct total pixels with
  | case1 r g b a rest ih =>
    intro hall
    have hlen : (r :: g :: b :: a :: rest).length = rest.length + 4 := by
      simp
    rw [hlen, Nat.add_div_right _ (by omega)] at hall ⊢
    rw [countWhite] at hall
    have hle := countWhite_le total pixels rest
    have hcond : lumaRGB r g b * pixels > total := by
      by_contra hc
      rw [if_neg hc] at hall
      omega
    rw [if_pos hcond] at hall
    have hrest : countWhite total pixels rest = rest.length / 4 := by omega
    have hih := ih hrest
    have hsum : sumLuma (r :: g :: b :: a :: rest) = lumaRGB r g b + sumLuma rest := rfl
    rw [hsum, Nat.add_mul, Nat.add_mul, Nat.one_mul]
    omega
  | case2 rest h =>
    intro hall
    match rest, h with
    | [], _ => simp
    | [x], _ => simp
    | [x, y], _ => simp
    | [x, y, z], _ => simp
    | x :: y :: z :: w :: t, h => exact absurd rfl (h x y z w t)

theorem binaryThreshold_idempotent_aux (img : Image) (hn : 0 < img.data.length / 4) :
    binaryThreshold (binaryThreshold img) = binaryThreshold img := by
  have hlen2 : (binaryThreshold img).data.length = img.data.length :=
    length_mapRGB _ img.data
  have hS2 : sumLuma (binaryThreshold img).data
      = 255 * countWhite (sumLuma img.data) (img.data.length / 4) img.data :=
    sumLuma_mapRGB_bt (sumLuma img.data) (img.data.length / 4) img.data
  have hWlt : countWhite (sumLuma img.data) (img.data.length / 4) img.data
      < img.data.length / 4 := by
    rcases Nat.lt_or_ge (countWhite (sumLuma img.data) (img.data.length / 4) img.data)
      (img.data.length / 4) with h | h
    · exact h
    · exfalso
      have hle := countWhite_le (sumLuma img.data) (img.data.length / 4) img.data
      have hWeq : countWhite (sumLuma img.data) (img.data.length / 4) img.data
          = img.data.length / 4 := by omega
      have hlow := sumLuma_lower_of_all_white (sumLuma img.data) (img.data.length / 4)
        img.data hWeq
      nlinarith
  have hfix : ∀ r g b,
      (fun r' g' b' =>
        let binary : Nat :=
          if lumaRGB r' g' b' * ((binaryThreshold img).data.length / 4)
              > sumLuma (binaryThreshold img).data
          then 255 else 0
        (binary, binary, binary))
        ((fun r' g' b' =>
          let binary : Nat :=
            if lumaRGB r' g' b' * (img.data.length / 4) > sumLuma img.data then 255 else 0
          (binary, binary, binary)) r g b).1
        ((fun r' g' b' =>
          let binary : Nat :=
            if lumaRGB r' g' b' * (img.data.length / 4) > sumLuma img.data then 255 else 0
          (binary, binary, binary)) r g b).2.1
        ((fun r' g' b' =>
          let binary : Nat :=
            if lumaRGB r' g' b' * (img.data.length / 4) > sumLuma img.data then 255 else 0
          (binary, binary, binary)) r g b).2.2
      = (fun r' g' b' =>
          let binary : Nat :=
            if lumaRGB r' g' b' * (img.data.length / 4) > sumLuma img.data then 255 else 0
          (binary, binary, binary)) r g b := by
    intro r g b
    by_cases hc : lumaRGB r g b * (img.data.length / 4) > sumLuma img.data
    · simp only [if_pos hc]
      have h255 : lumaRGB 255 255 255 = 255 := by decide
      rw [hlen2, hS2, h255, if_pos (by omega)]
    · simp only [if_neg hc]
      have h0 : lumaRGB 0 0 0 = 0 := by decide
      rw [hlen2, hS2, h0, if_neg (by omega)]
  have hdata : binaryThreshold (binaryThreshold img)
      = ⟨img.width, img.height,
          mapRGB (fun r' g' b' =>
            let binary : Nat :=
              if lumaRGB r' g' b' * ((binaryThreshold img).data.length / 4)
                  > sumLuma (binaryThreshold img).data
              then 255 else 0
            (binary, binary, binary)) (binaryThreshold img).data⟩ := rfl
  rw [hdata]
  have hres : binaryThreshold img
      = ⟨img.width, img.height,
          mapRGB (fun r' g' b' =>
            let binary : Nat :=
              if lumaRGB r' g' b' * (img.data.length / 4) > sumLuma img.data then 255 else 0
            (binary, binary, binary)) img.data⟩ := rfl
  conv_lhs => rw [show (binaryThreshold img).data
      = mapRGB (fun r' g' b' =>
          let binary : Nat :=
            if lumaRGB r' g' b' * (img.data.length / 4) > sumLuma img.data then 255 else 0
          (binary, binary, binary)) img.data from rfl]
  rw [mapRGB_fixpoint _ _ hfix]
  exact hres.symm

/-- C4.  On a bitmap with at least one pixel, every colour channel of the
binary-threshold output is replicated and two-valued — 255 exactly when
that pixel's luma exceeds the global mean luma `sum / pixels` — and the
filter is idempotent: applying it to its own output changes nothing. -/
theorem binaryThreshold_binary_idempotent (img : Image)
    (hlen : img.data.length = img.width * img.height * 4)
    (hpx : 0 < img.width * img.height) :
    (∀ i, i < img.width * img.height →
      ((binaryThreshold img).data.getD (4 * i + 1) 0 = (binaryThreshold img).data.getD (4 * i) 0 ∧
        (binaryThreshold img).data.getD (4 * i + 2) 0 = (binaryThreshold img).data.getD (4 * i) 0) ∧
      ((binaryThreshold img).data.getD (4 * i) 0 = 0 ∨
        (binaryThreshold img).data.getD (4 * i) 0 = 255) ∧
      ((binaryThreshold img).data.getD (4 * i) 0 = 255 ↔
        (sumLuma img.data : ℚ) / ((img.width * img.height : Nat) : ℚ) <
          (lumaRGB (img.data.getD (4 * i) 0) (img.data.getD (4 * i + 1) 0)
            (img.data.getD (4 * i + 2) 0) : ℚ))) ∧
    binaryThreshold (binaryThreshold img) = binaryThreshold img := by
  have hpixels : img.data.length / 4 = img.width * img.height := by
    rw [hlen]; omega
  constructor
  · intro i hi
    have hbound : 4 * i + 3 < img.data.length := by rw [hlen]; omega
    obtain ⟨h0, h1, h2, -⟩ := getD_mapRGB (fun r g b =>
      let binary : Nat :=
        if lumaRGB r g b * (img.data.length / 4) > sumLuma img.data then 255 else 0
      (binary, binary, binary)) i img.data hbound
    have hdata : (binaryThreshold img).data = mapRGB (fun r g b =>
        let binary : Nat :=
          if lumaRGB r g b * (img.data.length / 4) > sumLuma img.data then 255 else 0
        (binary, binary, binary)) img.data := rfl
    rw [hdata, h0, h1, h2]
    refine ⟨⟨rfl, rfl⟩, ?_, ?_⟩
    · by_cases hc : lumaRGB (img.data.getD (4 * i) 0) (img.data.getD (4 * i + 1) 0)
          (img.data.getD (4 * i + 2) 0) * (img.data.length / 4) > sumLuma img.data
      · rw [if_pos hc]; right; rfl
      · rw [if_neg hc]; left; rfl
    · rw [← hpixels,
        ← binary_test_iff_mean_lt _ (sumLuma img.data) _ (by rw [hpixels]; exact hpx)]
      by_cases hc : lumaRGB (img.data.getD (4 * i) 0) (img.data.getD (4 * i + 1) 0)
          (img.data.getD (4 * i + 2) 0) * (img.data.length / 4) > sumLuma img.data
      · rw [if_pos hc]; simpa using hc
      · rw [if_neg hc]; simpa using hc
  · exact binaryThreshold_idempotent_aux img (by rw [hpixels]; exact hpx)

/-! ## Interior-write fold lemmas (shared by sharpening and erosion) -/

theorem sharpenStep_eq_writeStep (w : Nat) :
    sharpenStep w = writeStep w
      (fun d p => clampInt255 (sharpenConv d w p.1 p.2 0))
      (fun d p => clampInt255 (sharpenConv d w p.1 p.2 1))
      (fun d p => clampInt255 (sharpenConv d w p.1 p.2 2)) := rfl

theorem erodeStep_eq_writeStep (temp : List Nat) (w : Nat) :
    erodeStep temp w = writeStep w
      (fun _ p => erodedMin temp w p.1 p.2)
      (fun _ p => erodedMin temp w p.1 p.2)
      (fun _ p => erodedMin temp w p.1 p.2) := rfl

theorem length_writeRGB (d : List Nat) (i r g b : Nat) :
    (writeRGB d i r g b).length = d.length := by
  simp [writeRGB]

theorem length_foldl_writeStep (w : Nat) (v1 v2 v3 : List Nat → Nat × Nat → Nat) :
    ∀ (ps : List (Nat × Nat)) (d : List Nat),
      (ps.foldl (writeStep w v1 v2 v3) d).length = d.length := by
  intro ps
  induction ps with
  | nil => intro d; rfl
  | cons p t ih =>
    intro d
    rw [List.foldl_cons, ih, writeStep, length_writeRGB]

theorem getD_writeRGB_ne (d : List Nat) (i r g b j : Nat)
    (h0 : i ≠ j) (h1 : i + 1 ≠ j) (h2 : i + 2 ≠ j) :
    (writeRGB d i r g b).getD j 0 = d.getD j 0 := by
  rw [writeRGB, List.getD_eq_getElem?_getD, List.getElem?_set_ne h2,
    List.getElem?_set_ne h1, List.getElem?_set_ne h0, ← List.getD_eq_getElem?_getD]

theorem getD_foldl_writeStep_ne (w : Nat) (v1 v2 v3 : List Nat → Nat × Nat → Nat) (j : Nat) :
    ∀ (ps : List (Nat × Nat)) (d : List Nat),
      (∀ q ∈ ps, ∀ c, c < 3 → (q.2 * w + q.1) * 4 + c ≠ j) →
      (ps.foldl (writeStep w v1 v2 v3) d).getD j 0 = d.getD j 0 := by
  intro ps
  induction ps with
  | nil => intro d _; rfl
  | cons p t ih =>
    intro d hps
    rw [List.foldl_cons, ih _ (fun q hq => hps q (List.mem_cons_of_mem p hq)), writeStep]
    have hp := hps p (List.mem_cons_self p t)
    exact getD_writeRGB_ne d _ _ _ _ j
      (by simpa using hp 0 (by omega)) (hp 1 (by omega)) (hp 2 (by omega))

theorem getD_writeRGB_self (d : List Nat) (i r g b : Nat) (h : i + 2 < d.length) :
    (writeRGB d i r g b).getD i 0 = r ∧
    (writeRGB d i r g b).getD (i + 1) 0 = g ∧
    (writeRGB d i r g b).getD (i + 2) 0 = b := by
  have l0 : (d.set i r).length = d.length := List.length_set d i r
  have l1 : ((d.set i r).set (i + 1) g).length = d.length := by
    rw [List.length_set, l0]
  refine ⟨?_, ?_, ?_⟩
  · rw [writeRGB, List.getD_eq_getElem?_getD, List.getElem?_set_ne (by omega),
      List.getElem?_set_ne (by omega), List.getElem?_set_self (by omega)]
    rfl
  · rw [writeRGB, List.getD_eq_getElem?_getD, List.getElem?_set_ne (by omega),
      List.getElem?_set_self (by rw [l0]; omega)]
    rfl
  · rw [writeRGB, List.getD_eq_getElem?_getD, List.getElem?_set_self (by rw [l1]; omega)]
    rfl

theorem rowmajor_inj (w x qx y qy : Nat) (hx : x < w) (hqx : qx < w)
    (heq : y * w + x = qy * w + qx) : x = qx ∧ y = qy := by
  have h1 : (x + y * w) % w = x := by
    rw [Nat.add_mul_mod_self_right]; exact Nat.mod_eq_of_lt hx
  have h2 : (qx + qy * w) % w = qx := by
    rw [Nat.add_mul_mod_self_right]; exact Nat.mod_eq_of_lt hqx
  have heq' : x + y * w = qx + qy * w := by omega
  have hxq : x = qx := by rw [← h1, ← h2, heq']
  refine ⟨hxq, ?_⟩
  have hw : 0 < w := by omega
  have : y * w = qy * w := by omega
  exact Nat.eq_of_mul_eq_mul_right hw this

theorem mem_interiorPositions (w h : Nat) (p : Nat × Nat) :
    p ∈ interiorPositions w h ↔
      1 ≤ p.1 ∧ p.1 + 1 < w ∧ 1 ≤ p.2 ∧ p.2 + 1 < h := by
  rcases p with ⟨px, py⟩
  rw [interiorPositions]
  simp only [List.mem_flatten, List.mem_map, List.mem_range]
  constructor
  · rintro ⟨row, ⟨j, hj, rfl⟩, hmem⟩
    obtain ⟨i, hi, hip⟩ := List.mem_map.mp hmem
    obtain ⟨rfl, rfl⟩ : i + 1 = px ∧ j + 1 = py := by
      exact ⟨congrArg Prod.fst hip, congrArg Prod.snd hip⟩
    have hi' := List.mem_range.mp hi
    refine ⟨by omega, by omega, by omega, by omega⟩
  · rintro ⟨hx1, hx2, hy1, hy2⟩
    refine ⟨(List.range (w - 2)).map (fun i => (i + 1, py - 1 + 1)), ⟨py - 1, by omega, ?_⟩, ?_⟩
    · rfl
    · refine List.mem_map.mpr ⟨px - 1, List.mem_range.mpr (by omega), ?_⟩
      have : px - 1 + 1 = px := by omega
      have hpy : py - 1 + 1 = py := by omega
      rw [this, hpy]

theorem pairwise_interiorPositions (w h : Nat) :
    (interiorPositions w h).Pairwise
      (fun p q => p.2 * w + p.1 < q.2 * w + q.1) := by
  rw [interiorPositions, List.pairwise_flatten]
  constructor
  · intro l hl
    obtain ⟨j, hj, rfl⟩ := List.mem_map.mp hl
    rw [List.pairwise_map]
    refine (List.pairwise_lt_range _).imp ?_
    intro a b hab
    simp only
    omega
  · rw [List.pairwise_map]
    refine (List.pairwise_lt_range _).imp ?_
    intro j1 j2 hj x hx y hy
    obtain ⟨i1, hi1, rfl⟩ := List.mem_map.mp hx
    obtain ⟨i2, hi2, rfl⟩ := List.mem_map.mp hy
    have hi1' := List.mem_range.mp hi1
    have hi2' := List.mem_range.mp hi2
    simp only
    have hstep : (j1 + 1) * w + w ≤ (j2 + 1) * w := by
      have h12 : j1 + 2 ≤ j2 + 1 := by omega
      have : (j1 + 1) * w + w = (j1 + 2) * w := by ring
      rw [this]
      exact Nat.mul_le_mul_right w h12
    have hw3 : 3 ≤ w := by omega
    omega

theorem interiorPositions_split (w h : Nat) (p : Nat × Nat)
    (hmem : p ∈ interiorPositions w h) :
    ∃ l₁ l₂, interiorPositions w h = l₁ ++ p :: l₂ ∧
      ∀ q ∈ l₂, p.2 * w + p.1 < q.2 * w + q.1 := by
  obtain ⟨l₁, l₂, hsplit⟩ := List.append_of_mem hmem
  refine ⟨l₁, l₂, hsplit, ?_⟩
  have hpw := pairwise_interiorPositions w h
  rw [hsplit, List.pairwise_append] at hpw
  exact fun q hq => List.rel_of_pairwise_cons hpw.2.1 hq

theorem getD_foldl_writeStep_visit (w : Nat) (v1 v2 v3 : List Nat → Nat × Nat → Nat)
    (l₁ l₂ : List (Nat × Nat)) (p : Nat × Nat) (d : List Nat)
    (hl₂ : ∀ q ∈ l₂, p.2 * w + p.1 < q.2 * w + q.1) (c : Nat) (hc : c < 3) :
    ((l₁ ++ p :: l₂).foldl (writeStep w v1 v2 v3) d).getD ((p.2 * w + p.1) * 4 + c) 0
      = (writeStep w v1 v2 v3 (l₁.foldl (writeStep w v1 v2 v3) d) p).getD
          ((p.2 * w + p.1) * 4 + c) 0 := by
  rw [List.foldl_append, List.foldl_cons]
  refine getD_foldl_writeStep_ne w v1 v2 v3 _ l₂ _ ?_
  intro q hq c' hc'
  have := hl₂ q hq
  omega

/-- Every 3x3-interior write targets a colour channel of an interior pixel,
so any byte that is a border pixel's channel or any pixel's alpha channel is
untouched by the whole interior fold. -/
theorem getD_foldl_interior_untouched (w h : Nat) (v1 v2 v3 : List Nat → Nat × Nat → Nat)
    (d : List Nat) (j : Nat)
    (hj : ∀ q : Nat × Nat, 1 ≤ q.1 → q.1 + 1 < w → 1 ≤ q.2 → q.2 + 1 < h →
      ∀ c, c < 3 → (q.2 * w + q.1) * 4 + c ≠ j) :
    ((interiorPositions w h).foldl (writeStep w v1 v2 v3) d).getD j 0 = d.getD j 0 := by
  refine getD_foldl_writeStep_ne w v1 v2 v3 j _ d ?_
  intro q hq c hc
  obtain ⟨h1, h2, h3, h4⟩ := (mem_interiorPositions w h q).mp hq
  exact hj q h1 h2 h3 h4 c hc

/-! ## C5: sharpening works in place -/

theorem interiorPositions_head (w h : Nat) (hw : 3 ≤ w) (hh : 3 ≤ h) :
    ∃ t, interiorPositions w h = (1, 1) :: t := by
  obtain ⟨h2, hh2⟩ : ∃ k, h - 2 = k + 1 := ⟨h - 3, by omega⟩
  obtain ⟨w2, hw2⟩ : ∃ k, w - 2 = k + 1 := ⟨w - 3, by omega⟩
  rw [interiorPositions, hh2, hw2, List.range_succ_eq_map, List.range_succ_eq_map]
  refine ⟨((List.range w2).map (fun i => (i + 1 + 1, 0 + 1)))
      ++ ((List.range h2).map (fun j =>
        ((0 :: (List.range w2).map (· + 1)).map (fun i => (i + 1, j + 1 + 1))))).flatten, ?_⟩
  simp only [List.map_cons, List.flatten_cons, List.map_map, List.cons_append]
  rfl

/-- C5 counterexample.  On `sharpenCexImg` the claimed value of pixel
`(2, 1)`'s red channel — the clamped kernel sum over the *original*
neighbour values — is 250, but the filter produces 195, because its working
buffer already holds the sharpened value 255 at `(1, 1)` when `(2, 1)` is
processed. -/
theorem sharpening_original_counterexample :
    (sharpening sharpenCexImg).data.getD ((1 * 4 + 2) * 4) 0 = 195 ∧
    clampInt255 (sharpenConv sharpenCexImg.data 4 2 1 0) = 250 ∧
    (195 : Nat) ≠ 250 :=
  ⟨by decide, by decide, by decide⟩

/-- C5 (amended).  Sharpening applies the 3x3 kernel
`[-1,-1,-1,-1,9,-1,-1,-1,-1]` per channel with clamping to `[0,255]` over
interior pixels, reading its own working buffer in place (already-processed
interior neighbours contribute their sharpened values, as the
counterexample shows); border pixels keep their pre-filter values on every
channel, and the first-visited interior pixel `(1, 1)` is computed from the
original bitmap's values. -/
theorem sharpening_inplace_border (img : Image)
    (hlen : img.data.length = img.width * img.height * 4) :
    (∀ x y c, x < img.width → y < img.height → c < 4 →
      (x = 0 ∨ x + 1 = img.width ∨ y = 0 ∨ y + 1 = img.height) →
      (sharpening img).data.getD ((y * img.width + x) * 4 + c) 0
        = img.data.getD ((y * img.width + x) * 4 + c) 0) ∧
    (3 ≤ img.width → 3 ≤ img.height → ∀ c, c < 3 →
      (sharpening img).data.getD ((1 * img.width + 1) * 4 + c) 0
        = clampInt255 (sharpenConv img.data img.width 1 1 c)) := by
  have hdata : (sharpening img).data
      = (interiorPositions img.width img.height).foldl
          (writeStep img.width
            (fun d p => clampInt255 (sharpenConv d img.width p.1 p.2 0))
            (fun d p => clampInt255 (sharpenConv d img.width p.1 p.2 1))
            (fun d p => clampInt255 (sharpenConv d img.width p.1 p.2 2))) img.data := by
    rw [show (sharpening img).data
        = (interiorPositions img.width img.height).foldl (sharpenStep img.width) img.data
      from rfl, sharpenStep_eq_writeStep]
  constructor
  · intro x y c hx hy hc hb
    rw [hdata]
    refine getD_foldl_interior_untouched _ _ _ _ _ _ _ ?_
    intro q h1 h2 h3 h4 c' hc' heq
    have hbase : q.2 * img.width + q.1 = y * img.width + x ∧ c' = c := by
      constructor <;> omega
    obtain ⟨hxq, hyq⟩ := rowmajor_inj img.width q.1 x q.2 y (by omega) hx hbase.1
    omega
  · intro hw hh c hc
    obtain ⟨t, ht⟩ := interiorPositions_head img.width img.height hw hh
    have hpair := pairwise_interiorPositions img.width img.height
    rw [ht] at hpair
    have hl₂ : ∀ q ∈ t, (1, 1).2 * img.width + (1, 1).1 < q.2 * img.width + q.1 :=
      fun q hq => List.rel_of_pairwise_cons hpair hq
    rw [hdata, ht, show ((1, 1) :: t : List (Nat × Nat)) = [] ++ (1, 1) :: t from rfl,
      getD_foldl_writeStep_visit img.width _ _ _ [] t (1, 1) img.data hl₂ c hc]
    have hbound : (1 * img.width + 1) * 4 + 2 < img.data.length := by
      rw [hlen]
      have h3w : img.width * 3 ≤ img.width * img.height := Nat.mul_le_mul_left _ hh
      omega
    obtain ⟨g0, g1, g2⟩ := getD_writeRGB_self img.data ((1 * img.width + 1) * 4)
      (clampInt255 (sharpenConv img.data img.width 1 1 0))
      (clampInt255 (sharpenConv img.data img.width 1 1 1))
      (clampInt255 (sharpenConv img.data img.width 1 1 2)) hbound
    interval_cases c
    · simpa [writeStep] using g0
    · simpa [writeStep] using g1
    · simpa [writeStep] using g2

/-- Witness for C5 (amended): the 3x3 all-sevens bitmap satisfies the
length invariant, and the theorem's conclusion holds for it. -/
theorem sharpening_inplace_border_witness :
    convWitnessImg.data.length = convWitnessImg.width * convWitnessImg.height * 4 ∧
    ((∀ x y c, x < convWitnessImg.width → y < convWitnessImg.height → c < 4 →
      (x = 0 ∨ x + 1 = convWitnessImg.width ∨ y = 0 ∨ y + 1 = convWitnessImg.height) →
      (sharpening convWitnessImg).data.getD ((y * convWitnessImg.width + x) * 4 + c) 0
        = convWitnessImg.data.getD ((y * convWitnessImg.width + x) * 4 + c) 0) ∧
    (3 ≤ convWitnessImg.width → 3 ≤ convWitnessImg.height → ∀ c, c < 3 →
      (sharpening convWitnessImg).data.getD ((1 * convWitnessImg.width + 1) * 4 + c) 0
        = clampInt255 (sharpenConv convWitnessImg.data convWitnessImg.width 1 1 c))) :=
  ⟨by decide, sharpening_inplace_border convWitnessImg (by decide)⟩

/-! ## C6: erosion takes the minimum over frozen-snapshot lumas -/

theorem foldl_min_spec :
    ∀ (L : List Nat) (a : Nat),
      (L.foldl min a ≤ a ∧ ∀ l ∈ L, L.foldl min a ≤ l) ∧
      (L.foldl min a = a ∨ L.foldl min a ∈ L) := by
  intro L
  induction L with
  | nil => intro a; exact ⟨⟨le_refl a, by simp⟩, Or.inl rfl⟩
  | cons x t ih =>
    intro a
    rw [List.foldl_cons]
    obtain ⟨⟨hle, hall⟩, hmem⟩ := ih (min a x)
    refine ⟨⟨le_trans hle (min_le_left a x), ?_⟩, ?_⟩
    · intro l hl
      rcases List.mem_cons.mp hl with rfl | hl
      · exact le_trans hle (min_le_right a l)
      · exact hall l hl
    · rcases hmem with heq | hmem
      · rcases le_total a x with hax | hax
        · exact Or.inl (by rw [heq, min_eq_left hax])
        · exact Or.inr (by rw [heq, min_eq_right hax]; exact List.mem_cons_self ..)
      · exact Or.inr (List.mem_cons_of_mem x hmem)

theorem getD_le_255 (d : List Nat) (hbytes : ∀ v ∈ d, v ≤ 255) (i : Nat) :
    d.getD i 0 ≤ 255 := by
  rcases Nat.lt_or_ge i d.length with h | h
  · rw [List.getD_eq_getElem?_getD, List.getElem?_eq_getElem h]
    exact hbytes _ (List.getElem_mem h)
  · rw [List.getD_eq_getElem?_getD, List.getElem?_eq_none (by omega)]
    simp

theorem lumaRGB_le_255 (r g b : Nat) (hr : r ≤ 255) (hg : g ≤ 255) (hb : b ≤ 255) :
    lumaRGB r g b ≤ 255 := by
  rw [lumaRGB]; omega

theorem neighborLumas_le_255 (d : List Nat) (hbytes : ∀ v ∈ d, v ≤ 255) (w x y : Nat) :
    ∀ l ∈ neighborLumas d w x y, l ≤ 255 := by
  intro l hl
  obtain ⟨q, -, rfl⟩ := List.mem_map.mp hl
  exact lumaRGB_le_255 _ _ _ (getD_le_255 d hbytes _) (getD_le_255 d hbytes _)
    (getD_le_255 d hbytes _)

theorem erodedMin_spec (d : List Nat) (hbytes : ∀ v ∈ d, v ≤ 255) (w x y : Nat) :
    erodedMin d w x y ∈ neighborLumas d w x y ∧
      ∀ l ∈ neighborLumas d w x y, erodedMin d w x y ≤ l := by
  obtain ⟨⟨-, hall⟩, hmem⟩ := foldl_min_spec (neighborLumas d w x y) 255
  rw [erodedMin]
  refine ⟨?_, hall⟩
  rcases hmem with heq | hm
  · have hhead : lumaRGB (chanAt d w (x - 1) (y - 1) 0) (chanAt d w (x - 1) (y - 1) 1)
        (chanAt d w (x - 1) (y - 1) 2) ∈ neighborLumas d w x y := by
      rw [neighborLumas]
      exact List.mem_map.mpr ⟨(x - 1, y - 1), List.mem_cons_self .., rfl⟩
    have hle := hall _ hhead
    have h255 := neighborLumas_le_255 d hbytes w x y _ hhead
    have : lumaRGB (chanAt d w (x - 1) (y - 1) 0) (chanAt d w (x - 1) (y - 1) 1)
        (chanAt d w (x - 1) (y - 1) 2) = 255 := by omega
    rw [heq, ← this]
    exact hhead
  · exact hm

/-- C6.  For every well-formed bitmap (bytes in range), each interior pixel
of the erosion output carries, on each colour channel, the minimum of the
nine neighbourhood lumas computed from the *original* (pre-erosion) pixel
values — the filter reads only the frozen snapshot, never already-eroded
values — and border pixels are left unmodified on every channel. -/
theorem morphological_frozen_min (img : Image)
    (hlen : img.data.length = img.width * img.height * 4)
    (hbytes : ∀ v ∈ img.data, v ≤ 255) :
    (∀ x y, 1 ≤ x → x + 1 < img.width → 1 ≤ y → y + 1 < img.height → ∀ c, c < 3 →
      (morphological img).data.getD ((y * img.width + x) * 4 + c) 0
          ∈ neighborLumas img.data img.width x y ∧
        ∀ l ∈ neighborLumas img.data img.width x y,
          (morphological img).data.getD ((y * img.width + x) * 4 + c) 0 ≤ l) ∧
    (∀ x y c, x < img.width → y < img.height → c < 4 →
      (x = 0 ∨ x + 1 = img.width ∨ y = 0 ∨ y + 1 = img.height) →
      (morphological img).data.getD ((y * img.width + x) * 4 + c) 0
        = img.data.getD ((y * img.width + x) * 4 + c) 0) := by
  have hdata : (morphological img).data
      = (interiorPositions img.width img.height).foldl
          (writeStep img.width
            (fun _ p => erodedMin img.data img.width p.1 p.2)
            (fun _ p => erodedMin img.data img.width p.1 p.2)
            (fun _ p => erodedMin img.data img.width p.1 p.2)) img.data := by
    rw [show (morphological img).data
        = (interiorPositions img.width img.height).foldl
            (erodeStep img.data img.width) img.data
      from rfl, erodeStep_eq_writeStep]
  constructor
  · intro x y hx1 hx2 hy1 hy2 c hc
    have hmem : ((x, y) : Nat × Nat) ∈ interiorPositions img.width img.height :=
      (mem_interiorPositions img.width img.height (x, y)).mpr ⟨hx1, hx2, hy1, hy2⟩
    obtain ⟨l₁, l₂, hsplit, hl₂⟩ := interiorPositions_split img.width img.height (x, y) hmem
    have hbound : (y * img.width + x) * 4 + 2
        < (l₁.foldl (writeStep img.width
            (fun _ p => erodedMin img.data img.width p.1 p.2)
            (fun _ p => erodedMin img.data img.width p.1 p.2)
            (fun _ p => erodedMin img.data img.width p.1 p.2)) img.data).length := by
      rw [length_foldl_writeStep, hlen]
      have e1 : (y + 1) * img.width = y * img.width + img.width := by ring
      have h2 : (y + 1) * img.width ≤ img.height * img.width :=
        Nat.mul_le_mul_right _ (by omega)
      have h3 : img.height * img.width = img.width * img.height := Nat.mul_comm _ _
      omega
    have hval : (morphological img).data.getD ((y * img.width + x) * 4 + c) 0
        = erodedMin img.data img.width x y := by
      rw [hdata, hsplit, getD_foldl_writeStep_visit img.width _ _ _ l₁ l₂ (x, y)
        img.data hl₂ c hc]
      obtain ⟨g0, g1, g2⟩ := getD_writeRGB_self _ ((y * img.width + x) * 4)
        (erodedMin img.data img.width x y) (erodedMin img.data img.width x y)
        (erodedMin img.data img.width x y) hbound
      interval_cases c
      · simpa [writeStep] using g0
      · simpa [writeStep] using g1
      · simpa [writeStep] using g2
    rw [hval]
    exact erodedMin_spec img.data hbytes img.width x y
  · intro x y c hx hy hc hb
    rw [hdata]
    refine getD_foldl_interior_untouched _ _ _ _ _ _ _ ?_
    intro q h1 h2 h3 h4 c' hc' heq
    have hbase : q.2 * img.width + q.1 = y * img.width + x ∧ c' = c := by
      constructor <;> omega
    obtain ⟨hxq, hyq⟩ := rowmajor_inj img.width q.1 x q.2 y (by omega) hx hbase.1
    omega

/-- Witness for C6: the 3x3 all-sevens bitmap satisfies both hypotheses,
and the theorem's conclusion holds for it. -/
theorem morphological_frozen_min_witness :
    (convWitnessImg.data.length = convWitnessImg.width * convWitnessImg.height * 4 ∧
      (∀ v ∈ convWitnessImg.data, v ≤ 255)) ∧
    ((∀ x y, 1 ≤ x → x + 1 < convWitnessImg.width → 1 ≤ y → y + 1 < convWitnessImg.height →
      ∀ c, c < 3 →
      (morphological convWitnessImg).data.getD ((y * convWitnessImg.width + x) * 4 + c) 0
          ∈ neighborLumas convWitnessImg.data convWitnessImg.width x y ∧
        ∀ l ∈ neighborLumas convWitnessImg.data convWitnessImg.width x y,
          (morphological convWitnessImg).data.getD
            ((y * convWitnessImg.width + x) * 4 + c) 0 ≤ l) ∧
    (∀ x y c, x < convWitnessImg.width → y < convWitnessImg.height → c < 4 →
      (x = 0 ∨ x + 1 = convWitnessImg.width ∨ y = 0 ∨ y + 1 = convWitnessImg.height) →
      (morphological convWitnessImg).data.getD ((y * convWitnessImg.width + x) * 4 + c) 0
        = convWitnessImg.data.getD ((y * convWitnessImg.width + x) * 4 + c) 0)) :=
  ⟨⟨by decide, by decide⟩, morphological_frozen_min convWitnessImg (by decide) (by decide)⟩

/-! ## C9: every strategy's filter preserves dimensions -/

theorem length_sharpening_data (img : Image) :
    (sharpening img).data.length = img.data.length := by
  rw [show (sharpening img).data
      = (interiorPositions img.width img.height).foldl (sharpenStep img.width) img.data
    from rfl, sharpenStep_eq_writeStep, length_foldl_writeStep]

theorem length_morphological_data (img : Image) :
    (morphological img).data.length = img.data.length := by
  rw [show (morphological img).data
      = (interiorPositions img.width img.height).foldl
          (erodeStep img.data img.width) img.data
    from rfl, erodeStep_eq_writeStep, length_foldl_writeStep]

/-- C9.  Each of the seven pipeline strategies' filters — identity,
contrast, grayscale, binary threshold, sharpen, inversion, erosion —
preserves width and height, and on a well-formed input buffer the output
buffer's length is exactly `width * height * 4`. -/
theorem filters_preserve_dimensions :
    ∀ k, k < 7 → ∀ img : Image, img.data.length = img.width * img.height * 4 →
      ((processingStrategies.getD k default).fn img).width = img.width ∧
      ((processingStrategies.getD k default).fn img).height = img.height ∧
      ((processingStrategies.getD k default).fn img).data.length
        = img.width * img.height * 4 := by
  intro k hk img hlen
  interval_cases k
  · exact ⟨rfl, rfl, hlen⟩
  · exact ⟨rfl, rfl, (length_mapRGB _ img.data).trans hlen⟩
  · exact ⟨rfl, rfl, (length_mapRGB _ img.data).trans hlen⟩
  · exact ⟨rfl, rfl, (length_mapRGB _ img.data).trans hlen⟩
  · exact ⟨rfl, rfl, (length_sharpening_data img).trans hlen⟩
  · exact ⟨rfl, rfl, (length_mapRGB _ img.data).trans hlen⟩
  · exact ⟨rfl, rfl, (length_morphological_data img).trans hlen⟩

/-- Witness for C9: the erosion strategy (index 6) on the 2x1 image. -/
theorem filters_preserve_dimensions_witness :
    ((6 : Nat) < 7 ∧
      dimWitnessImg.data.length = dimWitnessImg.width * dimWitnessImg.height * 4) ∧
    (((processingStrategies.getD 6 default).fn dimWitnessImg).width = dimWitnessImg.width ∧
      ((processingStrategies.getD 6 default).fn dimWitnessImg).height = dimWitnessImg.height ∧
      ((processingStrategies.getD 6 default).fn dimWitnessImg).data.length
        = dimWitnessImg.width * dimWitnessImg.height * 4) :=
  ⟨⟨by decide, by decide⟩, filters_preserve_dimensions 6 (by decide) dimWitnessImg (by decide)⟩

/-! ## C10: every strategy's filter preserves every alpha byte -/

/-- C10.  Every one of the seven filters leaves the alpha channel of every
pixel unchanged: for every well-formed bitmap and every pixel index `i`,
the byte at offset `4 * i + 3` of the output equals that of the input. -/
theorem filters_preserve_alpha :
    ∀ k, k < 7 → ∀ img : Image, img.data.length = img.width * img.height * 4 →
      ∀ i, 4 * i + 3 < img.data.length →
        ((processingStrategies.getD k default).fn img).data.getD (4 * i + 3) 0
          = img.data.getD (4 * i + 3) 0 := by
  intro k hk img hlen i hi
  interval_cases k
  · rfl
  · exact (getD_mapRGB _ i img.data hi).2.2.2
  · exact (getD_mapRGB _ i img.data hi).2.2.2
  · exact (getD_mapRGB _ i img.data hi).2.2.2
  · rw [show ((processingStrategies.getD 4 default).fn img).data
        = (interiorPositions img.width img.height).foldl (sharpenStep img.width) img.data
      from rfl, sharpenStep_eq_writeStep]
    exact getD_foldl_interior_untouched _ _ _ _ _ _ _
      (fun q h1 h2 h3 h4 c hc => by omega)
  · exact (getD_mapRGB _ i img.data hi).2.2.2
  · rw [show ((processingStrategies.getD 6 default).fn img).data
        = (interiorPositions img.width img.height).foldl
            (erodeStep img.data img.width) img.data
      from rfl, erodeStep_eq_writeStep]
    exact getD_foldl_interior_untouched _ _ _ _ _ _ _
      (fun q h1 h2 h3 h4 c hc => by omega)

/-- Witness for C10: the sharpening strategy (index 4) on the 2x1 image at
pixel index 1. -/
theorem filters_preserve_alpha_witness :
    ((4 : Nat) < 7 ∧
      dimWitnessImg.data.length = dimWitnessImg.width * dimWitnessImg.height * 4 ∧
      4 * 1 + 3 < dimWitnessImg.data.length) ∧
    ((processingStrategies.getD 4 default).fn dimWitnessImg).data.getD (4 * 1 + 3) 0
      = dimWitnessImg.data.getD (4 * 1 + 3) 0 :=
  ⟨⟨by decide, by decide, by decide⟩,
    filters_preserve_alpha 4 (by decide) dimWitnessImg (by decide) 1 (by decide)⟩

/-- Witness for C4: the one-pixel image `[10, 20, 30, 40]` satisfies both
hypotheses, and the theorem's conclusion holds for it. -/
theorem binaryThreshold_binary_idempotent_witness :
    (bwWitnessImg.data.length = bwWitnessImg.width * bwWitnessImg.height * 4 ∧
      0 < bwWitnessImg.width * bwWitnessImg.height) ∧
    ((∀ i, i < bwWitnessImg.width * bwWitnessImg.height →
      ((binaryThreshold bwWitnessImg).data.getD (4 * i + 1) 0
          = (binaryThreshold bwWitnessImg).data.getD (4 * i) 0 ∧
        (binaryThreshold bwWitnessImg).data.getD (4 * i + 2) 0
          = (binaryThreshold bwWitnessImg).data.getD (4 * i) 0) ∧
      ((binaryThreshold bwWitnessImg).data.getD (4 * i) 0 = 0 ∨
        (binaryThreshold bwWitnessImg).data.getD (4 * i) 0 = 255) ∧
      ((binaryThreshold bwWitnessImg).data.getD (4 * i) 0 = 255 ↔
        (sumLuma bwWitnessImg.data : ℚ) /
            ((bwWitnessImg.width * bwWitnessImg.height : Nat) : ℚ) <
          (lumaRGB (bwWitnessImg.data.getD (4 * i) 0) (bwWitnessImg.data.getD (4 * i + 1) 0)
            (bwWitnessImg.data.getD (4 * i + 2) 0) : ℚ))) ∧
    binaryThreshold (binaryThreshold bwWitnessImg) = binaryThreshold bwWitnessImg) :=
  ⟨⟨by decide, by decide⟩,
    binaryThreshold_binary_idempotent bwWitnessImg (by decide) (by decide)⟩

end Spec2Proof